import Mathlib

/-!
# A verified model of the `IRNode` expression-graph builder

This file gives a shallow embedding of `src/IRNode.cpp`: the typed IR node
store, the factory `make` (type inference and coercion, constant folding,
algebraic rewrites, variable uniquing, instruction fusion, CSE, construction),
the coercion `as`, `rebalanceSum`/`collectSum`, `substitute`, `bind` and
`markDescendents`.

Modelling conventions:
* Nodes live in a store (`St.nodes`); a node is identified by its index, which
  plays the role of the C++ pointer.  Pointer equality is index equality.
* C++ `float` is modelled as `ℚ` (the constants exercised here are exact).
* C++ `int` is modelled as `Int`.
* The mutually recursive factory functions take a fuel argument; `Res.spin`
  means the fuel ran out (a non-terminating C++ call spins at every fuel).
  `Res.fatal` models `panic`/`assert` (printing a message and `exit(-1)`),
  and is also used for reads that are undefined behaviour in the C++
  (out-of-range vector indexing).
-/

namespace IRN

/-- The three IR types (`Type` in the C++ source). -/
inductive Ty where
  | Int
  | Float
  | Bool
deriving DecidableEq, Repr

/-- The opcode enumeration (`OpCode` in the C++ source). -/
inductive Op where
  | Const
  | VarX
  | VarY
  | VarT
  | VarC
  | UnboundVar
  | Plus
  | Minus
  | Times
  | Divide
  | Power
  | Mod
  | Sin
  | Cos
  | Tan
  | ASin
  | ACos
  | ATan
  | ATan2
  | Exp
  | Log
  | Abs
  | Floor
  | Ceil
  | Round
  | LT
  | GT
  | LTE
  | GTE
  | EQ
  | NEQ
  | And
  | Nand
  | Or
  | IntToFloat
  | FloatToInt
  | PlusImm
  | TimesImm
  | LoadImm
  | Load
  | NoOp
deriving DecidableEq, Repr

/-- Dependency bitmask flags (the header is not part of `src/`; the exact bit
values are irrelevant to the code's behaviour, only their distinctness is). -/
def depT : Nat := 1
def depY : Nat := 2
def depX : Nat := 4
def depC : Nat := 8
def depMem : Nat := 16
def depUnbound : Nat := 32

/-- One IR node: `type`, `op`, input edges, output back-edges, the integer and
float immediates, the dependency bitmask, the level, the register slot and the
garbage-collector mark (`width` is constantly 1 and omitted). -/
structure Node where
  ty : Ty
  op : Op
  inputs : List Nat
  outputs : List Nat
  ival : Int
  fval : ℚ
  deps : Nat
  level : Nat
  reg : Int
  marked : Bool
deriving DecidableEq, Repr

/-- The process-wide node store: `allNodes` plus the three uniquing tables. -/
structure St where
  nodes : List Node
  floatInstances : List (ℚ × Nat)
  intInstances : List (Int × Nat)
  varInstances : List (Op × Nat)
deriving DecidableEq, Repr

/-- Result of a factory call: a value, a fatal error (`panic`/failed `assert`
terminates the process), or fuel exhaustion (the C++ call would not have
returned yet). -/
inductive Res (α : Type) where
  | ok (a : α)
  | fatal
  | spin
deriving DecidableEq, Repr

/-- Sequencing of fallible results. -/
def rbind {α β : Type} : Res α → (α → Res β) → Res β
  | .ok a, k => k a
  | .fatal, _ => .fatal
  | .spin, _ => .spin

@[simp] theorem rbind_ok {α β : Type} (a : α) (k : α → Res β) :
    rbind (.ok a) k = k a := rfl

@[simp] theorem rbind_fatal {α β : Type} (k : α → Res β) :
    rbind .fatal k = .fatal := rfl

@[simp] theorem rbind_spin {α β : Type} (k : α → Res β) :
    rbind .spin k = .spin := rfl

/-- Node lookup by id (the C++ pointer dereference). -/
def St.node? (s : St) (i : Nat) : Option Node := s.nodes.get? i

def emptySt : St := ⟨[], [], [], []⟩

/-- Association-list lookup used for the three uniquing maps. -/
def alookup {κ : Type} [DecidableEq κ] (l : List (κ × Nat)) (k : κ) : Option Nat :=
  match l with
  | [] => none
  | (k', v) :: rest => if k' = k then some v else alookup rest k

/-- The `deps` self-bit contributed by the opcode itself (constructor lines:
`VarX/Y/T/C`, `Load`, `UnboundVar`; note `LoadImm` contributes nothing). -/
def selfDep : Op → Nat
  | .VarX => depX
  | .VarY => depY
  | .VarT => depT
  | .VarC => depC
  | .Load => depMem
  | .UnboundVar => depUnbound
  | _ => 0

/-- `level` as a function of `deps` (constructor, lines 1000-1006). -/
def levelOf (d : Nat) : Nat :=
  if d &&& depUnbound ≠ 0 then 99
  else if d &&& depC ≠ 0 ∨ d &&& depMem ≠ 0 then 4
  else if d &&& depX ≠ 0 then 3
  else if d &&& depY ≠ 0 then 2
  else if d &&& depT ≠ 0 then 1
  else 0

/-- `deps` of the inputs of a node being constructed, starting from the
opcode's self-bit. -/
def depsOfInputs (s : St) (l : List Nat) (d0 : Nat) : Nat :=
  l.foldl (fun d i => d ||| (((s.node? i).map Node.deps).getD 0)) d0

/-- Append the new node's id to the `outputs` list of each of its inputs
(`inputs[i]->outputs.push_back(this)`). -/
def pushOutputs (nodes : List Node) (inputs : List Nat) (id : Nat) : List Node :=
  inputs.foldl
    (fun ns i =>
      match ns.get? i with
      | some n => ns.set i { n with outputs := n.outputs ++ [id] }
      | none => ns)
    nodes

/-- The general node constructor `IRNode(Type, OpCode, vector<IRNode*>, int,
float)`: push into `allNodes`, compute `deps` and `level`, and register the
back-edges. -/
def construct (t : Ty) (op : Op) (inputs : List Nat) (iv : Int) (fv : ℚ) (s : St) :
    Nat × St :=
  let id := s.nodes.length
  let d := depsOfInputs s inputs (selfDep op)
  let n : Node :=
    { ty := t, op := op, inputs := inputs, outputs := [], ival := iv, fval := fv,
      deps := d, level := levelOf d, reg := -1, marked := false }
  (id, { s with nodes := pushOutputs (s.nodes ++ [n]) inputs id })

/-- The node built by `IRNode(int v)`. -/
def intConstNode (v : Int) : Node :=
  { ty := .Int, op := .Const, inputs := [], outputs := [], ival := v, fval := 0,
    deps := 0, level := 0, reg := -1, marked := false }

/-- The node built by `IRNode(float v)`. -/
def floatConstNode (v : ℚ) : Node :=
  { ty := .Float, op := .Const, inputs := [], outputs := [], ival := 0, fval := v,
    deps := 0, level := 0, reg := -1, marked := false }

/-- `IRNode::make(int)`: the uniqued integer constant. -/
def mkIntConst (v : Int) (s : St) : Nat × St :=
  match alookup s.intInstances v with
  | some id => (id, s)
  | none =>
    (s.nodes.length,
     { s with nodes := s.nodes ++ [intConstNode v],
              intInstances := s.intInstances ++ [(v, s.nodes.length)] })

/-- `IRNode::make(float)`: the uniqued float constant. -/
def mkFloatConst (v : ℚ) (s : St) : Nat × St :=
  match alookup s.floatInstances v with
  | some id => (id, s)
  | none =>
    (s.nodes.length,
     { s with nodes := s.nodes ++ [floatConstNode v],
              floatInstances := s.floatInstances ++ [(v, s.nodes.length)] })

/-- Field access shorthands (with defaults; only used on valid ids). -/
def tyOf (s : St) (i : Nat) : Ty := (((s.node? i).map Node.ty).getD .Int)
def opOf (s : St) (i : Nat) : Op := (((s.node? i).map Node.op).getD .NoOp)
def depsOf (s : St) (i : Nat) : Nat := (((s.node? i).map Node.deps).getD 0)
def lvl (s : St) (i : Nat) : Nat := (((s.node? i).map Node.level).getD 0)
def ivalOf (s : St) (i : Nat) : Int := (((s.node? i).map Node.ival).getD 0)
def fvalOf (s : St) (i : Nat) : ℚ := (((s.node? i).map Node.fval).getD 0)
def inputsOf (s : St) (i : Nat) : List Nat := (((s.node? i).map Node.inputs).getD [])

/-- C cast `(int)` of a float: truncation toward zero. -/
def ratTrunc (q : ℚ) : Int := if q < 0 then -(⌊-q⌋) else ⌊q⌋

/-! ## `collectSum` (IRNode.cpp lines 929-942)

Collects the terms of a `Plus`/`Minus`/`PlusImm` spine as `(node, sign)`
pairs.  For `PlusImm` it appends `(make(ival), true)` — the sign of the
appended constant is `true` regardless of the current sign, exactly as in the
source. -/

def collectS (fuel : Nat) (nid : Nat) (positive : Bool) (s : St) :
    Res (List (Nat × Bool) × St) :=
  match fuel with
  | 0 => .spin
  | Nat.succ f =>
    match s.node? nid with
    | none => .fatal
    | some n =>
      match n.op with
      | .Plus =>
        match n.inputs with
        | [a, b] =>
          rbind (collectS f a positive s) fun (ts1, s1) =>
          rbind (collectS f b positive s1) fun (ts2, s2) =>
          .ok (ts1 ++ ts2, s2)
        | _ => .fatal
      | .Minus =>
        match n.inputs with
        | [a, b] =>
          rbind (collectS f a positive s) fun (ts1, s1) =>
          rbind (collectS f b (!positive) s1) fun (ts2, s2) =>
          .ok (ts1 ++ ts2, s2)
        | _ => .fatal
      | .PlusImm =>
        match n.inputs with
        | [a] =>
          rbind (collectS f a positive s) fun (ts1, s1) =>
          match mkIntConst n.ival s1 with
          | (c, s2) => .ok (ts1 ++ [(c, true)], s2)
        | _ => .fatal
      | _ => .ok ([(nid, positive)], s)

/-! ## The pairwise-swap sort of `rebalanceSum` (lines 857-868)

`for i; for j = i+1; if level[i] > level[j] swap` — reproduced literally,
including its instability on equal levels. -/

/-- List read with a default, standing for `nonConstTerms[i]`. -/
def lget (l : List (Nat × Bool)) (i : Nat) : Nat × Bool := (l.get? i).getD (0, true)

/-- The three-assignment swap of entries `i` and `j`. -/
def lswap (l : List (Nat × Bool)) (i j : Nat) : List (Nat × Bool) :=
  (l.set i (lget l j)).set j (lget l i)

/-- Level of a collected term, read from the store. -/
def lvlP (s : St) (p : Nat × Bool) : Nat := lvl s p.1

theorem lswap_length (l : List (Nat × Bool)) (i j : Nat) :
    (lswap l i j).length = l.length := by
  simp [lswap]

/-- The inner `j` loop; the countdown argument only bounds the iteration
count (the loop exits through the `j < length` test, and `j` increases by one
per step, so a countdown of `l.length` is never exhausted). -/
def sortInner (s : St) : Nat → List (Nat × Bool) → Nat → Nat → List (Nat × Bool)
  | 0, l, _, _ => l
  | Nat.succ g, l, i, j =>
    if j < l.length then
      sortInner s g (if lvlP s (lget l i) > lvlP s (lget l j) then lswap l i j else l) i (j + 1)
    else l
termination_by structural g _ _ _ => g

theorem sortInner_length (s : St) (g : Nat) (l : List (Nat × Bool)) (i j : Nat) :
    (sortInner s g l i j).length = l.length := by
  induction g generalizing l j with
  | zero => rfl
  | succ g ih =>
    rw [sortInner]
    split
    · rw [ih]
      split <;> simp [lswap_length]
    · rfl

/-- The outer `i` loop, with the same countdown pattern. -/
def sortOuter (s : St) : Nat → List (Nat × Bool) → Nat → List (Nat × Bool)
  | 0, l, _ => l
  | Nat.succ g, l, i =>
    if i < l.length then sortOuter s g (sortInner s l.length l i (i + 1)) (i + 1) else l
termination_by structural g _ _ => g

theorem sortOuter_length (s : St) (g : Nat) (l : List (Nat × Bool)) (i : Nat) :
    (sortOuter s g l i).length = l.length := by
  induction g generalizing l i with
  | zero => rfl
  | succ g ih =>
    rw [sortOuter]
    split
    · rw [ih, sortInner_length]
    · rfl

/-- The in-place sort of `nonConstTerms` by ascending level (lines 857-868). -/
def selSort (s : St) (l : List (Nat × Bool)) : List (Nat × Bool) := sortOuter s l.length l 0

theorem selSort_length (s : St) (l : List (Nat × Bool)) :
    (selSort s l).length = l.length := by
  rw [selSort, sortOuter_length]

/-- Signed sum of the `ival`s of the constant terms (Int branch, lines
909-916). -/
def sumConstsI (s : St) (cts : List (Nat × Bool)) : Int :=
  cts.foldl (fun c p => if p.2 then c + ivalOf s p.1 else c - ivalOf s p.1) 0

/-- Signed sum of the `fval`s of the constant terms (Float branch, lines
878-885). -/
def sumConstsF (s : St) (cts : List (Nat × Bool)) : ℚ :=
  cts.foldl (fun c p => if p.2 then c + fvalOf s p.1 else c - fvalOf s p.1) 0

/-! ## Stage 1 type rules -/

def outputsOf (s : St) (i : Nat) : List Nat := (((s.node? i).map Node.outputs).getD [])

/-- Result/coercion type of `Plus`/`Minus`/`Times`/`Power`/`Mod` (lines
104-107). -/
def arithCoerceTy (ta tb : Ty) : Ty :=
  if ta = .Float ∨ tb = .Float then .Float else .Int

/-- The type both operands of a comparison are coerced to (lines 154-158):
`Float` if either is `Float`, else `Bool` — the `else` branch carries the
`TODO: compare ints?` comment in the source. -/
def cmpCoerceTy (ta tb : Ty) : Ty :=
  if ta = .Float ∨ tb = .Float then .Float else .Bool

/-- Result/coercion type of `Or` (lines 174-180).  The source tests
`inputs[0]->type == Int || inputs[0]->type == Int` — the first operand twice —
and that is reproduced literally here. -/
def orCoerceTy (ta tb : Ty) : Ty :=
  if ta = .Float ∨ tb = .Float then .Float
  else if ta = .Int ∨ ta = .Int then .Int
  else .Bool

/-! ## Stage 2: constant folding (lines 214-272) -/

/-- The defined folds.  `none` means the opcode has no fold and flow falls
through to normal construction. -/
def foldConst (s : St) (op : Op) (t : Ty) (inputs : List Nat) (iv : Int) :
    Option (Nat × St) :=
  match op, inputs with
  | .Plus, [a, b] =>
    some (if t = .Float then mkFloatConst (fvalOf s a + fvalOf s b) s
          else mkIntConst (ivalOf s a + ivalOf s b) s)
  | .Minus, [a, b] =>
    some (if t = .Float then mkFloatConst (fvalOf s a - fvalOf s b) s
          else mkIntConst (ivalOf s a - ivalOf s b) s)
  | .Times, [a, b] =>
    some (if t = .Float then mkFloatConst (fvalOf s a * fvalOf s b) s
          else mkIntConst (ivalOf s a * ivalOf s b) s)
  | .PlusImm, [a] => some (mkIntConst (ivalOf s a + iv) s)
  | .TimesImm, [a] => some (mkIntConst (ivalOf s a * iv) s)
  | .Divide, [a, b] => some (mkFloatConst (fvalOf s a / fvalOf s b) s)
  | .And, [a, b] =>
    some (if t = .Float then mkFloatConst (if ivalOf s a ≠ 0 then fvalOf s b else 0) s
          else mkIntConst (if ivalOf s a ≠ 0 then ivalOf s b else 0) s)
  | .Or, [a, b] =>
    some (if t = .Float then mkFloatConst (fvalOf s a + fvalOf s b) s
          else mkIntConst (Int.lor (ivalOf s a) (ivalOf s b)) s)
  | .Nand, [a, b] =>
    some (if t = .Float then mkFloatConst (if ivalOf s a = 0 then fvalOf s b else 0) s
          else mkIntConst (if ivalOf s a = 0 then ivalOf s b else 0) s)
  | .IntToFloat, [a] => some (mkFloatConst ((ivalOf s a : ℚ)) s)
  | .FloatToInt, [a] => some (mkIntConst (ratTrunc (fvalOf s a)) s)
  | _, _ => none

/-! ## Stage 3 rewrite views (pure pattern matching; lines 287-360) -/

/-- `(x+a)*b = x*b + a*b` pattern (lines 287-314): returns `(x, a, b)` after
the level swap when the level test holds. -/
def distributeView (s : St) (inputs : List Nat) : Option (Nat × Nat × Nat) :=
  match inputs with
  | [i0, i1] =>
    match (if opOf s i0 = .Plus then
             some ((inputsOf s i0).getD 1 0, (inputsOf s i0).getD 0 0, i1)
           else if opOf s i1 = .Plus then
             some ((inputsOf s i1).getD 1 0, (inputsOf s i1).getD 0 0, i0)
           else none : Option (Nat × Nat × Nat)) with
    | none => none
    | some (x0, a0, b) =>
      let x := if lvl s x0 < lvl s a0 then a0 else x0
      let a := if lvl s x0 < lvl s a0 then x0 else a0
      if lvl s x > lvl s a ∧ lvl s x > lvl s b then some (x, a, b) else none
  | _ => none

/-- `Times(PlusImm(y, k), b)` pattern (lines 317-326): returns `(y, b, k)`. -/
def timesPlusImmView (s : St) (inputs : List Nat) : Option (Nat × Nat × Int) :=
  match inputs with
  | [i0, i1] =>
    if opOf s i0 = .PlusImm then some ((inputsOf s i0).getD 0 0, i1, ivalOf s i0)
    else none
  | _ => none

/-- `(x*a)*b = x*(a*b)` pattern (lines 332-359): returns `(x, a, b)` after the
level swap when the level test holds. -/
def reassocView (s : St) (inputs : List Nat) : Option (Nat × Nat × Nat) :=
  match inputs with
  | [i0, i1] =>
    match (if opOf s i0 = .Times then
             some ((inputsOf s i0).getD 0 0, (inputsOf s i0).getD 1 0, i1)
           else if opOf s i1 = .Times then
             some ((inputsOf s i1).getD 0 0, (inputsOf s i1).getD 1 0, i0)
           else none : Option (Nat × Nat × Nat)) with
    | none => none
    | some (x0, a0, b) =>
      let x := if lvl s x0 < lvl s a0 then a0 else x0
      let a := if lvl s x0 < lvl s a0 then x0 else a0
      if lvl s x > lvl s a ∧ lvl s x > lvl s b then some (x, a, b) else none
  | _ => none

/-! ## Stage 5 fusion views (lines 471-515) -/

/-- Load-offset fusion: `Load`/`LoadImm` of `Plus(a, const)`, `Plus(const, a)`,
`Minus(a, const)` or `PlusImm(a, c)` becomes `LoadImm(a, k ± c)`; returns the
new base and immediate. -/
def loadFuseView (s : St) (inputs : List Nat) (iv : Int) : Option (Nat × Int) :=
  match inputs with
  | i0 :: _ =>
    if opOf s i0 = .Plus then
      let left := (inputsOf s i0).getD 0 0
      let right := (inputsOf s i0).getD 1 0
      if opOf s left = .Const then some (right, ivalOf s left + iv)
      else if opOf s right = .Const then some (left, ivalOf s right + iv)
      else none
    else if opOf s i0 = .Minus ∧ opOf s ((inputsOf s i0).getD 1 0) = .Const then
      some ((inputsOf s i0).getD 0 0, -(ivalOf s ((inputsOf s i0).getD 1 0)) + iv)
    else if opOf s i0 = .PlusImm then
      some ((inputsOf s i0).getD 0 0, ivalOf s i0 + iv)
    else none
  | _ => none

/-- `Times` of an int constant fuses into `TimesImm` (applied when the result
type is `Int`): returns the non-constant operand and the immediate. -/
def timesImmView (s : St) (inputs : List Nat) : Option (Nat × Int) :=
  match inputs with
  | [l, r] =>
    if opOf s l = .Const then some (r, ivalOf s l)
    else if opOf s r = .Const then some (l, ivalOf s r)
    else none
  | _ => none

/-! ## Stage 6: common-subexpression elimination (lines 517-534) -/

/-- Scan the candidate list (`inputs[0]->outputs`) for a node with the same
`(ival, fval, op, type, inputs)` signature. -/
def cseScan (s : St) (cands : List Nat) (op : Op) (t : Ty) (inputs : List Nat)
    (iv : Int) (fv : ℚ) : Option Nat :=
  match cands with
  | [] => none
  | cand :: rest =>
    match s.node? cand with
    | none => cseScan s rest op t inputs iv fv
    | some n =>
      if n.ival = iv ∧ n.fval = fv ∧ n.op = op ∧ n.ty = t ∧ n.inputs = inputs then
        some cand
      else cseScan s rest op t inputs iv fv

def cseFind (s : St) (op : Op) (t : Ty) (inputs : List Nat) (iv : Int) (fv : ℚ) :
    Option Nat :=
  match inputs with
  | [] => none
  | i0 :: _ => cseScan s (outputsOf s i0) op t inputs iv fv

/-- Stage 6/7 tail: reuse a CSE hit, otherwise construct a fresh node. -/
def cseOrConstruct (s : St) (op : Op) (t : Ty) (inputs : List Nat) (iv : Int)
    (fv : ℚ) : Nat × St :=
  match cseFind s op t inputs iv fv with
  | some cand => (cand, s)
  | none => construct t op inputs iv fv s

/-! ## The factory

`makeOp` is `IRNode::make(opcode, inputs, ival, fval)`.  It is split along the
source's stages: `makeOp` performs stage 1 (type inference & coercion),
`makeRest` stages 2-3 (folding and the strength-reduction rewrites),
`makeTail` the rest (child sum-rebalancing, variable uniquing, fusion, CSE,
construction).  All functions consume one unit of fuel per call. -/

set_option maxHeartbeats 2000000 in
mutual

def makeOp : Nat → Op → List Nat → Int → ℚ → St → Res (Nat × St)
  | 0, _, _, _, _, _ => .spin
  | Nat.succ f, op, inputs, iv, fv, s =>
    match op with
    | .Const => .fatal
    | .NoOp =>
      match inputs with
      | [a] =>
        match s.node? a with
        | none => .fatal
        | some na => makeRest f .NoOp na.ty [a] iv fv s
      | _ => .fatal
    | .VarX | .VarY | .VarT | .VarC | .UnboundVar =>
      match inputs with
      | [] => makeRest f op .Int [] iv fv s
      | _ => .fatal
    | .Plus | .Minus | .Times | .Power | .Mod =>
      match inputs with
      | [a, b] =>
        match s.node? a, s.node? b with
        | some na, some nb =>
          let t := arithCoerceTy na.ty nb.ty
          rbind (asT f a t s) fun (a1, s1) =>
          rbind (asT f b t s1) fun (b1, s2) =>
          makeRest f op t [a1, b1] iv fv s2
        | _, _ => .fatal
      | _ => .fatal
    | .Divide | .ATan2 =>
      match inputs with
      | a :: b :: rest =>
        rbind (asT f a .Float s) fun (a1, s1) =>
        rbind (asT f b .Float s1) fun (b1, s2) =>
        makeRest f op .Float (a1 :: b1 :: rest) iv fv s2
      | _ => .fatal
    | .Sin | .Cos | .Tan | .ASin | .ACos | .ATan | .Exp | .Log =>
      match inputs with
      | [a] =>
        rbind (asT f a .Float s) fun (a1, s1) =>
        makeRest f op .Float [a1] iv fv s1
      | _ => .fatal
    | .Abs =>
      match inputs with
      | [a] =>
        match s.node? a with
        | none => .fatal
        | some na =>
          if na.ty = .Bool then .ok (a, s)
          else makeRest f .Abs na.ty [a] iv fv s
      | _ => .fatal
    | .Floor | .Ceil | .Round =>
      match inputs with
      | [a] =>
        match s.node? a with
        | none => .fatal
        | some na =>
          if na.ty ≠ .Float then .ok (a, s)
          else makeRest f op .Float [a] iv fv s
      | _ => .fatal
    | .LT | .GT | .LTE | .GTE | .EQ | .NEQ =>
      match inputs with
      | [a, b] =>
        match s.node? a, s.node? b with
        | some na, some nb =>
          let t := cmpCoerceTy na.ty nb.ty
          rbind (asT f a t s) fun (a1, s1) =>
          rbind (asT f b t s1) fun (b1, s2) =>
          makeRest f op .Bool [a1, b1] iv fv s2
        | _, _ => .fatal
      | _ => .fatal
    | .And | .Nand =>
      match inputs with
      | [a, b] =>
        rbind (asT f a .Bool s) fun (a1, s1) =>
        (match s1.node? b with
         | none => .fatal
         | some nb => makeRest f op nb.ty [a1, b] iv fv s1)
      | _ => .fatal
    | .Or =>
      match inputs with
      | [a, b] =>
        match s.node? a, s.node? b with
        | some na, some nb =>
          let t := orCoerceTy na.ty nb.ty
          rbind (asT f a t s) fun (a1, s1) =>
          rbind (asT f b t s1) fun (b1, s2) =>
          makeRest f .Or t [a1, b1] iv fv s2
        | _, _ => .fatal
      | _ => .fatal
    | .IntToFloat =>
      match inputs with
      | [a] =>
        match s.node? a with
        | none => .fatal
        | some na =>
          if na.ty = .Int then makeRest f .IntToFloat .Float [a] iv fv s
          else .fatal
      | _ => .fatal
    | .FloatToInt =>
      match inputs with
      | [a] =>
        match s.node? a with
        | none => .fatal
        | some na =>
          if na.ty = .Float then makeRest f .FloatToInt .Int [a] iv fv s
          else .fatal
      | _ => .fatal
    | .PlusImm | .TimesImm =>
      match inputs with
      | [a] => makeRest f op .Int [a] iv fv s
      | _ => .fatal
    | .LoadImm | .Load =>
      match inputs with
      | [a] =>
        rbind (asT f a .Int s) fun (a1, s1) =>
        makeRest f op .Float [a1] iv fv s1
      | _ => .fatal
termination_by structural f _ _ _ _ _ => f

def makeRest : Nat → Op → Ty → List Nat → Int → ℚ → St → Res (Nat × St)
  | 0, _, _, _, _, _, _ => .spin
  | Nat.succ f, op, t, inputs, iv, fv, s =>
    match (if inputs.all (fun i => depsOf s i = 0) ∧ inputs ≠ [] then
             foldConst s op t inputs iv
           else none) with
    | some r => .ok r
    | none =>
      if op = .NoOp then
        match inputs with
        | [a] => .ok (a, s)
        | _ => .fatal
      else if op = .Divide ∧ lvl s (inputs.getD 1 0) < lvl s (inputs.getD 0 0) then
        match mkFloatConst 1 s with
        | (one, s1) =>
          rbind (makeOp f .Divide [one, inputs.getD 1 0] 0 0 s1) fun (inv, s2) =>
          makeOp f .Times [inputs.getD 0 0, inv] 0 0 s2
      else if op = .Times then
        match distributeView s inputs with
        | some v =>
          rbind (makeOp f .Times [v.1, v.2.2] 0 0 s) fun (xb, s1) =>
          rbind (makeOp f .Times [v.2.1, v.2.2] 0 0 s1) fun (ab, s2) =>
          makeOp f .Plus [xb, ab] 0 0 s2
        | none =>
          match timesPlusImmView s inputs with
          | some v =>
            rbind (makeOp f .Times [v.1, v.2.1] 0 0 s) fun (yb, s1) =>
            match mkIntConst v.2.2 s1 with
            | (kc, s2) =>
              rbind (makeOp f .Times [v.2.1, kc] 0 0 s2) fun (bk, s3) =>
              makeOp f .Plus [yb, bk] 0 0 s3
          | none =>
            match reassocView s inputs with
            | some v =>
              rbind (makeOp f .Times [v.2.1, v.2.2] 0 0 s) fun (ab, s1) =>
              makeOp f .Times [v.1, ab] 0 0 s1
            | none => makeTail f op t inputs iv fv s
      else makeTail f op t inputs iv fv s
termination_by structural f _ _ _ _ _ _ => f

def makeTail : Nat → Op → Ty → List Nat → Int → ℚ → St → Res (Nat × St)
  | 0, _, _, _, _, _, _ => .spin
  | Nat.succ f, op, t, inputs, iv, fv, s =>
    rbind (if op = .Plus ∨ op = .Minus ∨ op = .PlusImm then .ok (inputs, s)
           else mapRebalance f inputs s) fun (ins, s1) =>
    if op = .VarX ∨ op = .VarY ∨ op = .VarT ∨ op = .VarC then
      match alookup s1.varInstances op with
      | some v => .ok (v, s1)
      | none =>
        match construct t op [] 0 0 s1 with
        | (id, s2) =>
          .ok (id, { s2 with varInstances := s2.varInstances ++ [(op, id)] })
    else if op = .UnboundVar then .ok (construct t op [] 0 0 s1)
    else if op = .Load ∨ op = .LoadImm then
      match loadFuseView s1 ins iv with
      | some q => makeOp f .LoadImm [q.1] q.2 0 s1
      | none => .ok (cseOrConstruct s1 op t ins iv fv)
    else if op = .Times ∧ t = .Int then
      match timesImmView s1 ins with
      | some q => makeOp f .TimesImm [q.1] q.2 0 s1
      | none => .ok (cseOrConstruct s1 op t ins iv fv)
    else .ok (cseOrConstruct s1 op t ins iv fv)
termination_by structural f _ _ _ _ _ _ => f

/-- `IRNode::as(Type)` (lines 560-588). -/
def asT : Nat → Nat → Ty → St → Res (Nat × St)
  | 0, _, _, _ => .spin
  | Nat.succ f, nid, t, s =>
    match s.node? nid with
    | none => .fatal
    | some n =>
      if n.ty = t then .ok (nid, s)
      else
        match n.ty, t with
        | .Int, .Float => makeOp f .IntToFloat [nid] 0 0 s
        | .Int, .Bool =>
          match mkIntConst 0 s with
          | (z, s1) => makeOp f .NEQ [nid, z] 0 0 s1
        | .Bool, .Float =>
          match mkFloatConst 1 s with
          | (o, s1) => makeOp f .And [nid, o] 0 0 s1
        | .Bool, .Int =>
          match mkIntConst 1 s with
          | (o, s1) => makeOp f .And [nid, o] 0 0 s1
        | .Float, .Bool =>
          match mkFloatConst 0 s with
          | (z, s1) => makeOp f .NEQ [nid, z] 0 0 s1
        | .Float, .Int => makeOp f .FloatToInt [nid] 0 0 s
        | _, _ => .fatal
termination_by structural f _ _ _ => f

/-- Stage 3.5: `inputs[i] = inputs[i]->rebalanceSum()` over the input list. -/
def mapRebalance : Nat → List Nat → St → Res (List Nat × St)
  | 0, _, _ => .spin
  | Nat.succ _, [], s => .ok ([], s)
  | Nat.succ f, i :: is, s =>
    rbind (rebalance f i s) fun (i1, s1) =>
    rbind (mapRebalance f is s1) fun (is1, s2) =>
    .ok (i1 :: is1, s2)
termination_by structural f _ _ => f

/-- `IRNode::rebalanceSum` (lines 838-926). -/
def rebalance : Nat → Nat → St → Res (Nat × St)
  | 0, _, _ => .spin
  | Nat.succ f, nid, s =>
    match s.node? nid with
    | none => .fatal
    | some n =>
      if ¬(n.op = .Plus ∨ n.op = .Minus ∨ n.op = .PlusImm) then .ok (nid, s)
      else
        rbind (collectS f nid true s) fun (terms, s1) =>
        match terms.filter (fun q => decide (opOf s1 q.1 = Op.Const)) with
        | constTerms =>
        match selSort s1 (terms.filter (fun q => !(decide (opOf s1 q.1 = Op.Const)))) with
        | [] => .fatal   -- the unguarded `nonConstTerms[0]` read on an empty list
        | t0 :: rest =>
          rbind (if n.ty = .Float then
                   floatWrap f (sumConstsF s1 constTerms) t0.1 t0.2 s1
                 else .ok (t0.1, s1)) fun (tstart, s2) =>
          rbind (rebuildLoop f rest tstart t0.2 s2) fun (tp, s3) =>
          if n.ty = .Int then
            intWrap f (sumConstsI s3 constTerms) tp.1 tp.2 s3
          else .ok (tp.1, s3)
termination_by structural f _ _ => f

/-- The remake loop over the sorted non-constant terms (lines 894-904). -/
def rebuildLoop : Nat → List (Nat × Bool) → Nat → Bool → St → Res ((Nat × Bool) × St)
  | 0, _, _, _, _ => .spin
  | Nat.succ _, [], tcur, tPos, s => .ok ((tcur, tPos), s)
  | Nat.succ f, nx :: rest, tcur, tPos, s =>
    if tPos = nx.2 then
      rbind (makeOp f .Plus [tcur, nx.1] 0 0 s) fun (t1, s1) =>
      rebuildLoop f rest t1 tPos s1
    else if tPos then
      rbind (makeOp f .Minus [tcur, nx.1] 0 0 s) fun (t1, s1) =>
      rebuildLoop f rest t1 tPos s1
    else
      rbind (makeOp f .Minus [nx.1, tcur] 0 0 s) fun (t1, s1) =>
      rebuildLoop f rest t1 true s1
termination_by structural f _ _ _ _ => f

/-- Int sums place the folded constant outermost (lines 908-923). -/
def intWrap : Nat → Int → Nat → Bool → St → Res (Nat × St)
  | 0, _, _, _, _ => .spin
  | Nat.succ f, c, tcur, tPos, s =>
    if c = 0 then .ok (tcur, s)
    else if tPos then makeOp f .PlusImm [tcur] c 0 s
    else
      match mkIntConst c s with
      | (cn, s1) => makeOp f .Minus [cn, tcur] 0 0 s1
termination_by structural f _ _ _ _ => f

/-- Float sums place the folded constant innermost (lines 877-892); note the
accumulator sign is left unchanged by the wrap, as in the source. -/
def floatWrap : Nat → ℚ → Nat → Bool → St → Res (Nat × St)
  | 0, _, _, _, _ => .spin
  | Nat.succ f, c, tcur, tPos, s =>
    if c = 0 then .ok (tcur, s)
    else
      match mkFloatConst c s with
      | (cn, s1) =>
        if tPos then makeOp f .Plus [cn, tcur] 0 0 s1
        else makeOp f .Minus [cn, tcur] 0 0 s1
termination_by structural f _ _ _ _ => f

end

/-! ## `substitute` (lines 731-762) -/

/-- The dep-bit checked for a substitution target; `none` for a non-variable
opcode (the `panic` arm of the `switch`). -/
def depBitOf : Op → Option Nat
  | .VarC => some depC
  | .VarX => some depX
  | .VarY => some depY
  | .VarT => some depT
  | _ => none

mutual

/-- `IRNode::substitute(var, value)`.  Note the source tests `op == var`
before validating that `var` is a variable opcode. -/
def substituteN : Nat → Nat → Op → Int → St → Res (Nat × St)
  | 0, _, _, _, _ => .spin
  | Nat.succ f, nid, var, val, s =>
    match s.node? nid with
    | none => .fatal
    | some n =>
      if n.op = var then .ok (mkIntConst val s)
      else
        match depBitOf var with
        | none => .fatal
        | some d =>
          if n.deps &&& d ≠ 0 then
            rbind (substList f n.inputs var val s) fun (ins, s1) =>
            makeOp f n.op ins n.ival n.fval s1
          else .ok (nid, s)
termination_by structural f _ _ _ _ => f

def substList : Nat → List Nat → Op → Int → St → Res (List Nat × St)
  | 0, _, _, _, _ => .spin
  | Nat.succ _, [], _, _, s => .ok ([], s)
  | Nat.succ f, i :: is, var, val, s =>
    rbind (substituteN f i var val s) fun (i1, s1) =>
    rbind (substList f is var val s1) fun (is1, s2) =>
    .ok (i1 :: is1, s2)
termination_by structural f _ _ _ _ => f

end

/-! ## `bind` (lines 765-779) -/

mutual

/-- `IRNode::bind(x, y, t, c)`: replace unbound variables, identified by
reference, with the implicit variables.  The source checks `x`, `y`, `c`, `t`
in that order. -/
def bindN : Nat → Nat → Nat → Nat → Nat → Nat → St → Res (Nat × St)
  | 0, _, _, _, _, _, _ => .spin
  | Nat.succ f, nid, x, y, t, c, s =>
    match s.node? nid with
    | none => .fatal
    | some n =>
      if n.deps &&& depUnbound = 0 then .ok (nid, s)
      else if nid = x then makeOp f .VarX [] 0 0 s
      else if nid = y then makeOp f .VarY [] 0 0 s
      else if nid = c then makeOp f .VarC [] 0 0 s
      else if nid = t then makeOp f .VarT [] 0 0 s
      else
        rbind (bindList f n.inputs x y t c s) fun (ins, s1) =>
        makeOp f n.op ins n.ival n.fval s1
termination_by structural f _ _ _ _ _ _ => f

def bindList : Nat → List Nat → Nat → Nat → Nat → Nat → St → Res (List Nat × St)
  | 0, _, _, _, _, _, _ => .spin
  | Nat.succ _, [], _, _, _, _, s => .ok ([], s)
  | Nat.succ f, i :: is, x, y, t, c, s =>
    rbind (bindN f i x y t c s) fun (i1, s1) =>
    rbind (bindList f is x y t c s1) fun (is1, s2) =>
    .ok (i1 :: is1, s2)
termination_by structural f _ _ _ _ _ _ => f

end

/-! ## `markDescendents` (lines 830-836) -/

mutual

/-- Clear or set the `marked` bit on a node and all its input descendents; the
node's own bit is written after the recursion, as in the source. -/
def markDesc : Nat → Nat → Bool → St → Res St
  | 0, _, _, _ => .spin
  | Nat.succ f, nid, newMark, s =>
    match s.node? nid with
    | none => .fatal
    | some n =>
      if n.marked = newMark then .ok s
      else
        rbind (markList f n.inputs newMark s) fun s1 =>
        match s1.node? nid with
        | none => .fatal
        | some n' => .ok { s1 with nodes := s1.nodes.set nid { n' with marked := newMark } }
termination_by structural f _ _ _ => f

def markList : Nat → List Nat → Bool → St → Res St
  | 0, _, _, _ => .spin
  | Nat.succ _, [], _, s => .ok s
  | Nat.succ f, i :: is, newMark, s =>
    rbind (markDesc f i newMark s) fun s1 =>
    markList f is newMark s1
termination_by structural f _ _ _ => f

end

/-! ## `printExp` (lines 590-673)

Only the recursion structure matters for the claims; numbers are rendered
simply rather than in `%f`/`%d` format.  The general fallback prints
`inputs[1]` for every argument after the first, as the source does. -/

def ratStr (q : ℚ) : String := toString q.num ++ "/" ++ toString q.den

def opname : Op → String
  | .Const => "Const"
  | .VarX => "VarX"
  | .VarY => "VarY"
  | .VarT => "VarT"
  | .VarC => "VarC"
  | .UnboundVar => "UnboundVar"
  | .Plus => "Plus"
  | .Minus => "Minus"
  | .Times => "Times"
  | .Divide => "Divide"
  | .Power => "Power"
  | .Mod => "Mod"
  | .Sin => "Sin"
  | .Cos => "Cos"
  | .Tan => "Tan"
  | .ASin => "ASin"
  | .ACos => "ACos"
  | .ATan => "ATan"
  | .ATan2 => "ATan2"
  | .Exp => "Exp"
  | .Log => "Log"
  | .Abs => "Abs"
  | .Floor => "Floor"
  | .Ceil => "Ceil"
  | .Round => "Round"
  | .LT => "LT"
  | .GT => "GT"
  | .LTE => "LTE"
  | .GTE => "GTE"
  | .EQ => "EQ"
  | .NEQ => "NEQ"
  | .And => "And"
  | .Nand => "Nand"
  | .Or => "Or"
  | .IntToFloat => "IntToFloat"
  | .FloatToInt => "FloatToInt"
  | .PlusImm => "PlusImm"
  | .TimesImm => "TimesImm"
  | .LoadImm => "LoadImm"
  | .Load => "Load"
  | .NoOp => "NoOp"

def printExpS : Nat → Nat → St → Res String
  | 0, _, _ => .spin
  | Nat.succ f, nid, s =>
    match s.node? nid with
    | none => .fatal
    | some n =>
      match n.op with
      | .Const => .ok (if n.ty = .Float then ratStr n.fval else toString n.ival)
      | .VarX => .ok "x"
      | .VarY => .ok "y"
      | .VarT => .ok "t"
      | .VarC => .ok "c"
      | .UnboundVar => .ok ("<" ++ toString nid ++ ">")
      | .Plus =>
        match n.inputs with
        | [a, b] =>
          rbind (printExpS f a s) fun sa =>
          rbind (printExpS f b s) fun sb => .ok ("(" ++ sa ++ "+" ++ sb ++ ")")
        | _ => .fatal
      | .PlusImm =>
        match n.inputs with
        | [a] =>
          rbind (printExpS f a s) fun sa =>
          .ok ("(" ++ sa ++ "+" ++ toString n.ival ++ ")")
        | _ => .fatal
      | .TimesImm =>
        match n.inputs with
        | [a] =>
          rbind (printExpS f a s) fun sa =>
          .ok ("(" ++ sa ++ "*" ++ toString n.ival ++ ")")
        | _ => .fatal
      | .Minus =>
        match n.inputs with
        | [a, b] =>
          rbind (printExpS f a s) fun sa =>
          rbind (printExpS f b s) fun sb => .ok ("(" ++ sa ++ "-" ++ sb ++ ")")
        | _ => .fatal
      | .Times =>
        match n.inputs with
        | [a, b] =>
          rbind (printExpS f a s) fun sa =>
          rbind (printExpS f b s) fun sb => .ok ("(" ++ sa ++ "*" ++ sb ++ ")")
        | _ => .fatal
      | .Divide =>
        match n.inputs with
        | [a, b] =>
          rbind (printExpS f a s) fun sa =>
          rbind (printExpS f b s) fun sb => .ok ("(" ++ sa ++ "/" ++ sb ++ ")")
        | _ => .fatal
      | .LoadImm =>
        match n.inputs with
        | [a] =>
          rbind (printExpS f a s) fun sa =>
          .ok ("[" ++ sa ++ "+" ++ toString n.ival ++ "]")
        | _ => .fatal
      | .Load =>
        match n.inputs with
        | [a] =>
          rbind (printExpS f a s) fun sa => .ok ("[" ++ sa ++ "]")
        | _ => .fatal
      | op' =>
        match n.inputs with
        | [] => .ok (opname op')
        | i0 :: restIns =>
          rbind (printExpS f i0 s) fun s0 =>
          match n.inputs.get? 1 with
          | none => .ok (opname op' ++ "(" ++ s0 ++ ")")
          | some i1 =>
            rbind (printExpS f i1 s) fun s1 =>
            .ok (opname op' ++ "(" ++ s0 ++
                 String.join (List.replicate restIns.length (", " ++ s1)) ++ ")")

/-! ## Store-extension infrastructure

Nodes are immutable after construction except for `outputs` and `marked`; the
`core` projection collects the immutable fields.  `Ext s s'` says `s'` was
obtained from `s` by factory steps: old ids keep their core fields. -/

def core (n : Node) : Ty × Op × List Nat × Int × ℚ × Nat × Nat × Int :=
  (n.ty, n.op, n.inputs, n.ival, n.fval, n.deps, n.level, n.reg)

def Ext (s s' : St) : Prop :=
  s.nodes.length ≤ s'.nodes.length ∧
  ∀ i, i < s.nodes.length → (s'.node? i).map core = (s.node? i).map core

theorem Ext.refl (s : St) : Ext s s := ⟨le_rfl, fun _ _ => rfl⟩

theorem Ext.trans {s1 s2 s3 : St} (h12 : Ext s1 s2) (h23 : Ext s2 s3) :
    Ext s1 s3 :=
  ⟨le_trans h12.1 h23.1, fun i hi => ((h23.2 i (lt_of_lt_of_le hi h12.1)).trans (h12.2 i hi))⟩

theorem node?_def (s : St) (i : Nat) : s.node? i = s.nodes.get? i := rfl

theorem node?_isSome_iff {s : St} {i : Nat} :
    (∃ n, s.node? i = some n) ↔ i < s.nodes.length := by
  constructor
  · rintro ⟨n, hn⟩
    by_contra h
    rw [node?_def, List.get?_len_le (Nat.le_of_not_lt h)] at hn
    exact Option.noConfusion hn
  · intro h
    rcases Option.ne_none_iff_exists'.mp (show s.node? i ≠ none by
      rw [node?_def, Ne, List.get?_eq_none]; omega) with ⟨n, hn⟩
    exact ⟨n, hn⟩

theorem node?_lt_length {s : St} {i : Nat} {n : Node}
    (h : s.node? i = some n) : i < s.nodes.length :=
  node?_isSome_iff.mp ⟨n, h⟩

/-- Core-field getters transfer along `Ext` for old ids. -/
theorem Ext.node?_core {s s' : St} {i : Nat} {n : Node} (he : Ext s s')
    (h : s.node? i = some n) :
    ∃ n', s'.node? i = some n' ∧ core n' = core n := by
  have hi := node?_lt_length h
  have := he.2 i hi
  rw [h] at this
  rcases Option.map_eq_some'.mp this with ⟨n', hn', hc⟩
  exact ⟨n', hn', hc⟩

theorem core_fields {m n : Node} (h : core m = core n) :
    m.ty = n.ty ∧ m.op = n.op ∧ m.inputs = n.inputs ∧ m.ival = n.ival ∧
    m.fval = n.fval ∧ m.deps = n.deps ∧ m.level = n.level ∧ m.reg = n.reg := by
  simp only [core, Prod.mk.injEq] at h
  tauto

theorem Ext.opOf {s s' : St} {i : Nat} (he : Ext s s') (hi : i < s.nodes.length) :
    opOf s' i = opOf s i := by
  rcases node?_isSome_iff.mpr hi with ⟨n, hn⟩
  rcases he.node?_core hn with ⟨n', hn', hc⟩
  simp [IRN.opOf, hn, hn', (core_fields hc).2.1]

theorem Ext.tyOf {s s' : St} {i : Nat} (he : Ext s s') (hi : i < s.nodes.length) :
    tyOf s' i = tyOf s i := by
  rcases node?_isSome_iff.mpr hi with ⟨n, hn⟩
  rcases he.node?_core hn with ⟨n', hn', hc⟩
  simp [IRN.tyOf, hn, hn', (core_fields hc).1]

theorem Ext.depsOf {s s' : St} {i : Nat} (he : Ext s s') (hi : i < s.nodes.length) :
    depsOf s' i = depsOf s i := by
  rcases node?_isSome_iff.mpr hi with ⟨n, hn⟩
  rcases he.node?_core hn with ⟨n', hn', hc⟩
  simp [IRN.depsOf, hn, hn', (core_fields hc).2.2.2.2.2.1]

theorem Ext.ivalOf {s s' : St} {i : Nat} (he : Ext s s') (hi : i < s.nodes.length) :
    ivalOf s' i = ivalOf s i := by
  rcases node?_isSome_iff.mpr hi with ⟨n, hn⟩
  rcases he.node?_core hn with ⟨n', hn', hc⟩
  simp [IRN.ivalOf, hn, hn', (core_fields hc).2.2.2.1]

theorem Ext.fvalOf {s s' : St} {i : Nat} (he : Ext s s') (hi : i < s.nodes.length) :
    fvalOf s' i = fvalOf s i := by
  rcases node?_isSome_iff.mpr hi with ⟨n, hn⟩
  rcases he.node?_core hn with ⟨n', hn', hc⟩
  simp [IRN.fvalOf, hn, hn', (core_fields hc).2.2.2.2.1]

theorem Ext.lvl {s s' : St} {i : Nat} (he : Ext s s') (hi : i < s.nodes.length) :
    lvl s' i = lvl s i := by
  rcases node?_isSome_iff.mpr hi with ⟨n, hn⟩
  rcases he.node?_core hn with ⟨n', hn', hc⟩
  simp [IRN.lvl, hn, hn', (core_fields hc).2.2.2.2.2.2.1]

theorem Ext.inputsOf {s s' : St} {i : Nat} (he : Ext s s') (hi : i < s.nodes.length) :
    inputsOf s' i = inputsOf s i := by
  rcases node?_isSome_iff.mpr hi with ⟨n, hn⟩
  rcases he.node?_core hn with ⟨n', hn', hc⟩
  simp [IRN.inputsOf, hn, hn', (core_fields hc).2.2.1]

theorem pushOutputs_nil (ns : List Node) (id : Nat) : pushOutputs ns [] id = ns := rfl

theorem pushOutputs_cons (ns : List Node) (j : Nat) (rest : List Nat) (id : Nat) :
    pushOutputs ns (j :: rest) id =
      pushOutputs
        (match ns.get? j with
         | some n => ns.set j { n with outputs := n.outputs ++ [id] }
         | none => ns) rest id := rfl

/-- `pushOutputs` only touches `outputs`. -/
theorem pushOutputs_core (l : List Nat) (id : Nat) (ns : List Node) (i : Nat) :
    ((pushOutputs ns l id).get? i).map core = (ns.get? i).map core := by
  induction l generalizing ns with
  | nil => rfl
  | cons j rest ih =>
    rw [pushOutputs_cons, ih]
    cases hj : ns.get? j with
    | none => simp
    | some n =>
      simp only [List.get?_set]
      by_cases hij : j = i
      · subst hij; rw [hj]; simp [core]
      · simp [hij]

theorem pushOutputs_length (l : List Nat) (id : Nat) (ns : List Node) :
    (pushOutputs ns l id).length = ns.length := by
  induction l generalizing ns with
  | nil => rfl
  | cons j rest ih =>
    rw [pushOutputs_cons, ih]
    cases hj : ns.get? j with
    | none => rfl
    | some n => simp [List.length_set]

/-- `construct` extends the store by one node; old cores are untouched. -/
theorem construct_ext (t : Ty) (op : Op) (inputs : List Nat) (iv : Int) (fv : ℚ)
    (s : St) : Ext s (construct t op inputs iv fv s).2 := by
  constructor
  · simp [construct, St.node?, pushOutputs_length]
  · intro i hi
    simp only [construct, St.node?]
    rw [pushOutputs_core]
    rw [List.get?_append hi]

theorem construct_fst (t : Ty) (op : Op) (inputs : List Nat) (iv : Int) (fv : ℚ)
    (s : St) : (construct t op inputs iv fv s).1 = s.nodes.length := rfl

theorem construct_length (t : Ty) (op : Op) (inputs : List Nat) (iv : Int)
    (fv : ℚ) (s : St) :
    (construct t op inputs iv fv s).2.nodes.length = s.nodes.length + 1 := by
  simp [construct, pushOutputs_length]

/-- The freshly constructed node, up to its (mutable) `outputs` list. -/
theorem construct_new_core (t : Ty) (op : Op) (inputs : List Nat) (iv : Int)
    (fv : ℚ) (s : St) :
    ((construct t op inputs iv fv s).2.node? s.nodes.length).map core =
      some (t, op, inputs, iv, fv,
            depsOfInputs s inputs (selfDep op),
            levelOf (depsOfInputs s inputs (selfDep op)), -1) := by
  simp only [construct, St.node?]
  rw [pushOutputs_core, List.get?_concat_length]
  rfl

/-- `mkIntConst` leaves existing nodes untouched. -/
theorem mkIntConst_ext (v : Int) (s : St) : Ext s (mkIntConst v s).2 := by
  rw [mkIntConst]
  cases alookup s.intInstances v with
  | some id => exact Ext.refl s
  | none =>
    refine ⟨by simp, fun i hi => ?_⟩
    simp only [St.node?]
    rw [List.get?_append hi]

theorem mkFloatConst_ext (v : ℚ) (s : St) : Ext s (mkFloatConst v s).2 := by
  rw [mkFloatConst]
  cases alookup s.floatInstances v with
  | some id => exact Ext.refl s
  | none =>
    refine ⟨by simp, fun i hi => ?_⟩
    simp only [St.node?]
    rw [List.get?_append hi]

theorem alookup_append_of_none {κ : Type} [DecidableEq κ]
    {l : List (κ × Nat)} {k : κ} (h : alookup l k = none) (v : Nat) :
    alookup (l ++ [(k, v)]) k = some v := by
  induction l with
  | nil => simp [alookup]
  | cons p rest ih =>
    rw [alookup] at h
    rcases p with ⟨k', v'⟩
    by_cases hk : k' = k
    · rw [if_pos hk] at h; exact Option.noConfusion h
    · rw [if_neg hk] at h
      simpa [alookup, hk] using ih h

/-- `opOf` through a known lookup. -/
theorem opOf_eq {s : St} {i : Nat} {n : Node} (h : s.node? i = some n) :
    opOf s i = n.op := by simp [opOf, h]

theorem tyOf_eq {s : St} {i : Nat} {n : Node} (h : s.node? i = some n) :
    tyOf s i = n.ty := by simp [tyOf, h]

theorem depsOf_eq {s : St} {i : Nat} {n : Node} (h : s.node? i = some n) :
    depsOf s i = n.deps := by simp [depsOf, h]

/-! ## Concrete stores used by the claims -/

/-- First component of a successful factory call (0 on failure; used only on
calls proven to succeed). -/
def okId (r : Res (Nat × St)) : Nat :=
  match r with
  | .ok p => p.1
  | _ => 0

/-- Store of a successful factory call. -/
def okSt (r : Res (Nat × St)) : St :=
  match r with
  | .ok p => p.2
  | _ => emptySt

namespace Ex

/-! Float constants `1.0f`, `0.0f` and the `Bool`-typed node `NEQ(1.0f, 0.0f)`
(deps = 0, ival = 0), plus `VarX`; used by C1, C2 and C4. -/

def pOne : Nat × St := mkFloatConst 1 emptySt
def pZero : Nat × St := mkFloatConst 0 pOne.2
def rB : Res (Nat × St) := makeOp 20 .NEQ [pOne.1, pZero.1] 0 0 pZero.2
def bId : Nat := okId rB
def sB : St := okSt rB
def rBX : Res (Nat × St) := makeOp 20 .VarX [] 0 0 sB
def xId : Nat := okId rBX
def sBX : St := okSt rBX

/-- Comparing the `Bool` node with itself (C1's counterexample call). -/
def rEQ : Res (Nat × St) := makeOp 20 .EQ [bId, bId] 0 0 sB

/-! `VarX`, `VarY`, `Plus(VarX, VarY)` from an empty store; used by C7. -/

def rX : Res (Nat × St) := makeOp 20 .VarX [] 0 0 emptySt
def rY : Res (Nat × St) := makeOp 20 .VarY [] 0 0 (okSt rX)
def rP : Res (Nat × St) := makeOp 20 .Plus [okId rX, okId rY] 0 0 (okSt rY)
def pId : Nat := okId rP
def sP : St := okSt rP

/-! The C5 counterexample store: `a = VarX`, `b = TimesImm(VarX, 2)`,
`d = VarT`, `n = Minus(a, Plus(b, d))`.  All terms are `Int`; `b` and `a`
share level 3 while `d` has level 1. -/

def rC5a : Res (Nat × St) := makeOp 40 .VarX [] 0 0 emptySt
def rC5b : Res (Nat × St) := makeOp 40 .TimesImm [okId rC5a] 2 0 (okSt rC5a)
def rC5d : Res (Nat × St) := makeOp 40 .VarT [] 0 0 (okSt rC5b)
def rC5p : Res (Nat × St) :=
  makeOp 40 .Plus [okId rC5b, okId rC5d] 0 0 (okSt rC5d)
def rC5n : Res (Nat × St) :=
  makeOp 40 .Minus [okId rC5a, okId rC5p] 0 0 (okSt rC5p)
def c5n : Nat := okId rC5n
def sC5 : St := okSt rC5n
def rC5r1 : Res (Nat × St) := rebalance 40 c5n sC5
def rC5r2 : Res (Nat × St) := rebalance 40 (okId rC5r1) (okSt rC5r1)

end Ex

/-! ## Claim C5 — rebalance idempotence -/

/-- Claim C5, counterexample.  For the factory-built `Int` node
`n = Minus(VarX, Plus(TimesImm(VarX, 2), VarT))`, `rebalanceSum(n)` returns
`Minus(VarX, Plus(VarT, TimesImm(VarX, 2)))` (node 6), but applying
`rebalanceSum` to that result returns the structurally different node
`Minus(Minus(VarX, VarT), TimesImm(VarX, 2))` (node 8): the claimed
reference-idempotence fails.  (The pairwise-swap sort is unstable on the two
level-3 terms, so the second pass re-orders them.) -/
theorem C5_counterexample :
    Ex.rC5r1 = .ok (6, okSt Ex.rC5r1) ∧
    Ex.rC5r2 = .ok (8, okSt Ex.rC5r2) ∧
    okId Ex.rC5r1 ≠ okId Ex.rC5r2 ∧
    opOf Ex.sC5 Ex.c5n = Op.Minus ∧ tyOf Ex.sC5 Ex.c5n = Ty.Int := by
  refine ⟨by decide, by decide, by decide, by decide, by decide⟩

/-- Claim C5, amended: `rebalanceSum` returns any node whose opcode is not
`Plus`, `Minus` or `PlusImm` unchanged (same reference, same store), so on
those nodes it is trivially idempotent; on sum-opcode nodes idempotence by
reference can fail (see the counterexample). -/
theorem C5_theorem (f : Nat) (s : St) (nid : Nat)
    (hv : nid < s.nodes.length)
    (h1 : opOf s nid ≠ .Plus) (h2 : opOf s nid ≠ .Minus)
    (h3 : opOf s nid ≠ .PlusImm) :
    rebalance (f + 1) nid s = .ok (nid, s) ∧
    rbind (rebalance (f + 1) nid s)
      (fun (p : Nat × St) => rebalance (f + 1) p.1 p.2) = .ok (nid, s) := by
  rcases node?_isSome_iff.mpr hv with ⟨n, hn⟩
  rw [opOf_eq hn] at h1 h2 h3
  have hreb : rebalance (f + 1) nid s = .ok (nid, s) := by
    rw [rebalance, hn]
    simp [h1, h2, h3]
  refine ⟨hreb, ?_⟩
  rw [hreb, rbind_ok, hreb]

/-- Witness for `C5_theorem`: a `VarX` node (opcode `VarX`, not a sum). -/
theorem C5_witness :
    rebalance 7 Ex.xId Ex.sBX = .ok (Ex.xId, Ex.sBX) :=
  (C5_theorem 6 Ex.sBX Ex.xId (by decide) (by decide) (by decide) (by decide)).1

/-! ## Claim C7 — substitute on a non-variable opcode -/

/-- Claim C7, counterexample.  `substitute` tests `op == var` before
validating `var`, so calling `substitute(Plus, 5)` on the node
`Plus(VarX, VarY)` is not fatal: it returns the constant node `make(5)`. -/
theorem C7_counterexample :
    substituteN 20 Ex.pId .Plus 5 Ex.sP =
      .ok (mkIntConst 5 Ex.sP) ∧
    opOf (mkIntConst 5 Ex.sP).2 (mkIntConst 5 Ex.sP).1 = Op.Const ∧
    ivalOf (mkIntConst 5 Ex.sP).2 (mkIntConst 5 Ex.sP).1 = 5 := by
  refine ⟨by decide, by decide, by decide⟩

/-- Claim C7, amended: for a non-variable opcode `var`, `substitute(var, k)`
is fatal whenever the receiver's opcode differs from `var`; when the
receiver's opcode equals `var` it instead returns the constant `make(k)`. -/
theorem C7_theorem (f : Nat) (s : St) (nid : Nat) (var : Op) (k : Int)
    (hv : nid < s.nodes.length)
    (h1 : var ≠ .VarX) (h2 : var ≠ .VarY) (h3 : var ≠ .VarT) (h4 : var ≠ .VarC) :
    (opOf s nid ≠ var → substituteN (f + 1) nid var k s = .fatal) ∧
    (opOf s nid = var → substituteN (f + 1) nid var k s = .ok (mkIntConst k s)) := by
  rcases node?_isSome_iff.mpr hv with ⟨n, hn⟩
  rw [opOf_eq hn]
  have hdep : depBitOf var = none := by
    cases var <;> simp_all [depBitOf]
  constructor
  · intro hne
    rw [substituteN, hn]
    simp [hne, hdep]
  · intro heq
    rw [substituteN, hn]
    simp [heq]

/-- Witness for `C7_theorem`: the node `Plus(VarX, VarY)` with `var = Times`
(fatal) and with `var = Plus` (returns `make(5)`). -/
theorem C7_witness :
    substituteN 3 Ex.pId .Times 5 Ex.sP = .fatal ∧
    substituteN 3 Ex.pId .Plus 5 Ex.sP = .ok (mkIntConst 5 Ex.sP) := by
  constructor
  · exact (C7_theorem 2 Ex.sP Ex.pId .Times 5 (by decide) (by decide) (by decide)
      (by decide) (by decide)).1 (by decide)
  · exact (C7_theorem 2 Ex.sP Ex.pId .Plus 5 (by decide) (by decide) (by decide)
      (by decide) (by decide)).2 (by decide)

/-! ## Claim C8 — uniquing of constants and variables -/

theorem construct_varInstances (t : Ty) (op : Op) (inputs : List Nat) (iv : Int)
    (fv : ℚ) (s : St) :
    (construct t op inputs iv fv s).2.varInstances = s.varInstances := rfl

/-- Claim C8: (1) two `make(int)` calls with the same value return the same
node, (2) likewise for `make(float)`, (3) a repeated `make(VarX/Y/T/C)`
returns the unique instance without changing the store, and (4) a
`make(UnboundVar)` call returns a fresh node, distinct from every
previously-existing node. -/
theorem C8_theorem :
    (∀ (v : Int) (s : St) (n : Nat) (s₁ : St),
        mkIntConst v s = (n, s₁) → mkIntConst v s₁ = (n, s₁)) ∧
    (∀ (v : ℚ) (s : St) (n : Nat) (s₁ : St),
        mkFloatConst v s = (n, s₁) → mkFloatConst v s₁ = (n, s₁)) ∧
    (∀ (vop : Op) (f g : Nat) (s : St) (n : Nat) (s₁ : St),
        (vop = .VarX ∨ vop = .VarY ∨ vop = .VarT ∨ vop = .VarC) →
        makeOp (f + 4) vop [] 0 0 s = .ok (n, s₁) →
        makeOp (g + 4) vop [] 0 0 s₁ = .ok (n, s₁)) ∧
    (∀ (f : Nat) (s : St) (n : Nat) (s₁ : St),
        makeOp (f + 4) .UnboundVar [] 0 0 s = .ok (n, s₁) →
        n = s.nodes.length ∧ (∀ m, m < s.nodes.length → n ≠ m) ∧
        s₁.nodes.length = s.nodes.length + 1) := by
  refine ⟨?_, ?_, ?_, ?_⟩
  · intro v s n s₁ h
    rw [mkIntConst] at h
    cases hl : alookup s.intInstances v with
    | some id =>
      rw [hl] at h
      simp only [Prod.mk.injEq] at h
      rw [mkIntConst, ← h.2, hl, h.1]
    | none =>
      rw [hl] at h
      simp only [Prod.mk.injEq] at h
      rw [mkIntConst, ← h.2]
      simp only [alookup_append_of_none hl, h.1]
  · intro v s n s₁ h
    rw [mkFloatConst] at h
    cases hl : alookup s.floatInstances v with
    | some id =>
      rw [hl] at h
      simp only [Prod.mk.injEq] at h
      rw [mkFloatConst, ← h.2, hl, h.1]
    | none =>
      rw [hl] at h
      simp only [Prod.mk.injEq] at h
      rw [mkFloatConst, ← h.2]
      simp only [alookup_append_of_none hl, h.1]
  · intro vop f g s n s₁ hvop h
    have hstep : ∀ (k : Nat) (s' : St),
        makeOp (k + 4) vop [] 0 0 s' =
          match alookup s'.varInstances vop with
          | some v => .ok (v, s')
          | none =>
            .ok ((construct .Int vop [] 0 0 s').1,
                 { (construct .Int vop [] 0 0 s').2 with
                   varInstances := (construct .Int vop [] 0 0 s').2.varInstances ++
                     [(vop, (construct .Int vop [] 0 0 s').1)] }) := by
      intro k s'
      rcases hvop with h' | h' | h' | h' <;> subst h' <;> rfl
    rw [hstep f s] at h
    rw [hstep g s₁]
    cases hl : alookup s.varInstances vop with
    | some v =>
      rw [hl] at h
      simp only [Res.ok.injEq, Prod.mk.injEq] at h
      rw [← h.2, hl, h.1]
    | none =>
      rw [hl] at h
      simp only [Res.ok.injEq, Prod.mk.injEq] at h
      rw [← h.2]
      have halo : alookup ((construct Ty.Int vop [] 0 0 s).2.varInstances ++
          [(vop, n)]) vop = some n := by
        rw [construct_varInstances]
        exact alookup_append_of_none hl n
      simp only [halo, h.1]
  · intro f s n s₁ h
    have hstep : makeOp (f + 4) .UnboundVar [] 0 0 s =
        .ok (construct .Int .UnboundVar [] 0 0 s) := rfl
    rw [hstep] at h
    simp only [Res.ok.injEq] at h
    have h1 : n = s.nodes.length := by
      rw [← construct_fst .Int .UnboundVar [] 0 0 s]
      exact (congrArg Prod.fst h).symm
    refine ⟨h1, fun m hm => by omega, ?_⟩
    have h2 : s₁ = (construct .Int .UnboundVar [] 0 0 s).2 :=
      (congrArg Prod.snd h).symm
    rw [h2, construct_length]

/-- Witness for `C8_theorem`: concrete repeated calls for the int constant 3,
the float constant 3/2, `VarX`, and a fresh `UnboundVar` on the empty store. -/
theorem C8_witness :
    mkIntConst 3 (mkIntConst 3 emptySt).2 =
      ((mkIntConst 3 emptySt).1, (mkIntConst 3 emptySt).2) ∧
    mkFloatConst (3 / 2) (mkFloatConst (3 / 2) emptySt).2 =
      ((mkFloatConst (3 / 2) emptySt).1, (mkFloatConst (3 / 2) emptySt).2) ∧
    makeOp 9 .VarX [] 0 0 (okSt (makeOp 4 .VarX [] 0 0 emptySt)) =
      .ok (okId (makeOp 4 .VarX [] 0 0 emptySt), okSt (makeOp 4 .VarX [] 0 0 emptySt)) ∧
    okId (makeOp 4 .UnboundVar [] 0 0 emptySt) = 0 := by
  refine ⟨?_, ?_, ?_, ?_⟩
  · exact C8_theorem.1 3 emptySt (mkIntConst 3 emptySt).1 (mkIntConst 3 emptySt).2 rfl
  · exact C8_theorem.2.1 (3 / 2) emptySt (mkFloatConst (3 / 2) emptySt).1
      (mkFloatConst (3 / 2) emptySt).2 rfl
  · exact C8_theorem.2.2.1 .VarX 0 5 emptySt
      (okId (makeOp 4 .VarX [] 0 0 emptySt)) (okSt (makeOp 4 .VarX [] 0 0 emptySt))
      (Or.inl rfl) (by decide)
  · have := C8_theorem.2.2.2 0 emptySt
      (okId (makeOp 4 .UnboundVar [] 0 0 emptySt))
      (okSt (makeOp 4 .UnboundVar [] 0 0 emptySt)) (by decide)
    simpa using this.1

/-! ## Claim C2 — the `Or` type rule

`Or` tests `inputs[0]->type == Int` twice, so `Or(Bool, Int)` computes the
result type `Bool` and then tries to coerce the `Int` operand to `Bool`; that
coercion builds `NEQ(operand, make(0))`, whose own type rule coerces the
non-Float operand to `Bool` again — an infinite recursion.  The call never
returns. -/

/-- Every entry of the int-constant uniquing table points at an existing
`Int`-typed node (true of every factory-reachable store; decidable). -/
def intTableOk (s : St) : Bool :=
  s.intInstances.all (fun p =>
    match s.node? p.2 with
    | some n => n.ty == Ty.Int
    | none => false)

theorem alookup_mem {κ : Type} [DecidableEq κ] {l : List (κ × Nat)} {k : κ}
    {v : Nat} (h : alookup l k = some v) : (k, v) ∈ l := by
  induction l with
  | nil => exact Option.noConfusion h
  | cons p rest ih =>
    rw [alookup] at h
    rcases p with ⟨k', v'⟩
    by_cases hk : k' = k
    · rw [if_pos hk] at h
      subst hk
      cases h
      exact List.mem_cons_self _ _
    · rw [if_neg hk] at h
      exact List.mem_cons_of_mem _ (ih h)

theorem intTableOk_lookup {s : St} {v : Int} {id : Nat}
    (ht : intTableOk s = true) (h : alookup s.intInstances v = some id) :
    ∃ n, s.node? id = some n ∧ n.ty = Ty.Int := by
  have := List.all_eq_true.mp ht _ (alookup_mem h)
  cases hn : s.node? id with
  | none => rw [hn] at this; exact absurd this (by simp)
  | some n =>
    rw [hn] at this
    exact ⟨n, rfl, by simpa using this⟩

/-- Equation lemmas for `mkIntConst`. -/
theorem mkIntConst_some {s : St} {v : Int} {id : Nat}
    (hl : alookup s.intInstances v = some id) : mkIntConst v s = (id, s) := by
  rw [mkIntConst, hl]

theorem mkIntConst_none {s : St} {v : Int}
    (hl : alookup s.intInstances v = none) :
    mkIntConst v s =
      (s.nodes.length,
       { s with nodes := s.nodes ++ [intConstNode v],
                intInstances := s.intInstances ++ [(v, s.nodes.length)] }) := by
  rw [mkIntConst, hl]

theorem mkFloatConst_some {s : St} {v : ℚ} {id : Nat}
    (hl : alookup s.floatInstances v = some id) : mkFloatConst v s = (id, s) := by
  rw [mkFloatConst, hl]

theorem mkFloatConst_none {s : St} {v : ℚ}
    (hl : alookup s.floatInstances v = none) :
    mkFloatConst v s =
      (s.nodes.length,
       { s with nodes := s.nodes ++ [floatConstNode v],
                floatInstances := s.floatInstances ++ [(v, s.nodes.length)] }) := by
  rw [mkFloatConst, hl]

theorem mkIntConst_node?_preserved {s : St} {i : Nat} {n : Node} (v : Int)
    (h : s.node? i = some n) : (mkIntConst v s).2.node? i = some n := by
  cases hl : alookup s.intInstances v with
  | some id => rw [mkIntConst_some hl]; exact h
  | none =>
    rw [mkIntConst_none hl]
    simp only [node?_def]
    rw [List.get?_append (node?_lt_length h)]
    exact h

/-- `make(int)` returns an `Int`-typed node (given a well-formed table). -/
theorem mkIntConst_ty {s : St} (v : Int) (ht : intTableOk s = true) :
    ∃ n, (mkIntConst v s).2.node? (mkIntConst v s).1 = some n ∧ n.ty = Ty.Int := by
  cases hl : alookup s.intInstances v with
  | some id =>
    rw [mkIntConst_some hl]
    exact intTableOk_lookup ht hl
  | none =>
    rw [mkIntConst_none hl]
    refine ⟨intConstNode v, ?_, rfl⟩
    simp only [node?_def]
    exact List.get?_concat_length _ _

theorem intTableOk_push (s : St) (nd : Node) (v : Int) (hty : nd.ty = Ty.Int)
    (ht : intTableOk s = true) :
    intTableOk
      { nodes := s.nodes ++ [nd], floatInstances := s.floatInstances,
        intInstances := s.intInstances ++ [(v, s.nodes.length)],
        varInstances := s.varInstances } = true := by
  rw [intTableOk, List.all_eq_true]
  intro p hp
  have hget : ∀ i : Nat, (St.mk (s.nodes ++ [nd]) s.floatInstances
      (s.intInstances ++ [(v, s.nodes.length)]) s.varInstances).node? i
        = (s.nodes ++ [nd]).get? i := fun _ => rfl
  simp only [List.mem_append, List.mem_singleton] at hp
  rcases hp with hp | hp
  · have hold := List.all_eq_true.mp ht _ hp
    cases hn : s.node? p.2 with
    | none => rw [hn] at hold; exact absurd hold (by simp)
    | some n =>
      rw [hn] at hold
      rw [hget, List.get?_append (node?_lt_length hn)]
      rw [node?_def] at hn
      rw [hn]
      exact hold
  · subst hp
    rw [hget]
    simp only []
    rw [List.get?_concat_length]
    simpa using hty

theorem intTableOk_mkIntConst {s : St} (v : Int) (ht : intTableOk s = true) :
    intTableOk (mkIntConst v s).2 = true := by
  cases hl : alookup s.intInstances v with
  | some id => rw [mkIntConst_some hl]; exact ht
  | none =>
    rw [mkIntConst_none hl]
    exact intTableOk_push s (intConstNode v) v rfl ht

/-- Branch unfolding for `as`: the body on the looked-up node. -/
theorem asT_unfold {s : St} {nid : Nat} {n : Node} (f : Nat) (t : Ty)
    (hn : s.node? nid = some n) :
    asT (f + 1) nid t s =
      (if n.ty = t then .ok (nid, s)
       else match n.ty, t with
         | .Int, .Float => makeOp f .IntToFloat [nid] 0 0 s
         | .Int, .Bool => makeOp f .NEQ [nid, (mkIntConst 0 s).1] 0 0 (mkIntConst 0 s).2
         | .Bool, .Float => makeOp f .And [nid, (mkFloatConst 1 s).1] 0 0 (mkFloatConst 1 s).2
         | .Bool, .Int => makeOp f .And [nid, (mkIntConst 1 s).1] 0 0 (mkIntConst 1 s).2
         | .Float, .Bool => makeOp f .NEQ [nid, (mkFloatConst 0 s).1] 0 0 (mkFloatConst 0 s).2
         | .Float, .Int => makeOp f .FloatToInt [nid] 0 0 s
         | _, _ => .fatal) := by
  rw [asT, hn]

/-- Branch unfolding for `as(Bool)` on an `Int`-typed node. -/
theorem asT_int_bool {s : St} {nid : Nat} {n : Node} (f : Nat)
    (hn : s.node? nid = some n) (hty : n.ty = Ty.Int) :
    asT (f + 1) nid .Bool s =
      makeOp f .NEQ [nid, (mkIntConst 0 s).1] 0 0 (mkIntConst 0 s).2 := by
  rw [asT_unfold f .Bool hn, if_neg (by rw [hty]; decide), hty]

/-- Branch unfolding for identity coercion. -/
theorem asT_id {s : St} {nid : Nat} {n : Node} {t : Ty} (f : Nat)
    (hn : s.node? nid = some n) (hty : n.ty = t) :
    asT (f + 1) nid t s = .ok (nid, s) := by
  rw [asT_unfold f t hn, if_pos hty]

/-- Branch unfolding for the comparison opcodes. -/
theorem makeOp_cmp_unfold {op : Op} {s : St} {a b : Nat} {na nb : Node}
    (f : Nat) (iv : Int) (fv : ℚ)
    (hop : op = .LT ∨ op = .GT ∨ op = .LTE ∨ op = .GTE ∨ op = .EQ ∨ op = .NEQ)
    (ha : s.node? a = some na) (hb : s.node? b = some nb) :
    makeOp (f + 1) op [a, b] iv fv s =
      rbind (asT f a (cmpCoerceTy na.ty nb.ty) s) fun (p1 : Nat × St) =>
      rbind (asT f b (cmpCoerceTy na.ty nb.ty) p1.2) fun (p2 : Nat × St) =>
      makeRest f op .Bool [p1.1, p2.1] iv fv p2.2 := by
  rcases hop with h | h | h | h | h | h <;> subst h <;> rw [makeOp, ha, hb]

/-- Branch unfolding for `Or`. -/
theorem makeOp_or_unfold {s : St} {a b : Nat} {na nb : Node}
    (f : Nat) (iv : Int) (fv : ℚ)
    (ha : s.node? a = some na) (hb : s.node? b = some nb) :
    makeOp (f + 1) .Or [a, b] iv fv s =
      rbind (asT f a (orCoerceTy na.ty nb.ty) s) fun (p1 : Nat × St) =>
      rbind (asT f b (orCoerceTy na.ty nb.ty) p1.2) fun (p2 : Nat × St) =>
      makeRest f .Or (orCoerceTy na.ty nb.ty) [p1.1, p2.1] iv fv p2.2 := by
  rw [makeOp, ha, hb]

/-- Coercing an `Int`-typed node to `Bool` never returns: `as(Bool)` builds
`NEQ(n, make(0))`, and the comparison's own type rule coerces each non-Float
operand to `Bool` again. -/
theorem C2aux : ∀ f : Nat,
    (∀ (s : St) (nid : Nat) (n : Node), intTableOk s = true →
        s.node? nid = some n → n.ty = Ty.Int → asT f nid .Bool s = .spin) ∧
    (∀ (s : St) (a b : Nat) (na nb : Node), intTableOk s = true →
        s.node? a = some na → na.ty = Ty.Int →
        s.node? b = some nb → nb.ty ≠ Ty.Float →
        makeOp f .NEQ [a, b] 0 0 s = .spin) := by
  intro f
  induction f with
  | zero => exact ⟨fun _ _ _ _ _ _ => rfl, fun _ _ _ _ _ _ _ _ _ _ => rfl⟩
  | succ f ih =>
    constructor
    · intro s nid n ht hn hty
      rw [asT_int_bool f hn hty]
      rcases mkIntConst_ty 0 ht with ⟨nz, hnz, hnzty⟩
      exact ih.2 (mkIntConst 0 s).2 nid (mkIntConst 0 s).1 n nz
        (intTableOk_mkIntConst 0 ht) (mkIntConst_node?_preserved 0 hn) hty
        hnz (by rw [hnzty]; decide)
    · intro s a b na nb ht ha hta hb htb
      rw [makeOp_cmp_unfold f 0 0 (by tauto) ha hb]
      have hcoe : cmpCoerceTy na.ty nb.ty = Ty.Bool := by
        rw [cmpCoerceTy, if_neg]
        push_neg
        exact ⟨by rw [hta]; decide, htb⟩
      rw [hcoe]
      rw [ih.1 s a na ht ha hta]
      rfl

/-- `Or` with a `Bool` first operand and an `Int` second operand spins: the
duplicated `inputs[0]` test picks result type `Bool` and the `Int` operand's
`as(Bool)` coercion diverges. -/
theorem orBoolInt_spin (f : Nat) (s : St) (a b : Nat)
    (ht : intTableOk s = true)
    (hva : a < s.nodes.length) (hta : tyOf s a = Ty.Bool)
    (hvb : b < s.nodes.length) (htb : tyOf s b = Ty.Int) :
    makeOp f .Or [a, b] 0 0 s = .spin := by
  rcases node?_isSome_iff.mpr hva with ⟨na, hna⟩
  rcases node?_isSome_iff.mpr hvb with ⟨nb, hnb⟩
  rw [tyOf_eq hna] at hta
  rw [tyOf_eq hnb] at htb
  cases f with
  | zero => rfl
  | succ f =>
    rw [makeOp_or_unfold f 0 0 hna hnb]
    have hcoe : orCoerceTy na.ty nb.ty = Ty.Bool := by
      rw [orCoerceTy, hta, htb]
      decide
    rw [hcoe]
    cases f with
    | zero => rfl
    | succ g =>
      rw [asT_id g hna hta, rbind_ok]
      rw [(C2aux (g + 1)).1 s b nb ht hnb htb]
      rfl

/-- Claim C2, evaluated at the failing input: `make(Or, b, x)` with `b` the
`Bool` node `NEQ(1.0f, 0.0f)` and `x = VarX` (an `Int`) never returns, at any
fuel — so it has no result type at all, while the claim requires result type
`Int` with both operands coerced to `Int`.  (The source computes `t = Bool`
because it tests `inputs[0]->type == Int` twice.) -/
theorem C2_theorem : ∀ f : Nat, makeOp f .Or [Ex.bId, Ex.xId] 0 0 Ex.sBX = .spin :=
  fun f => orBoolInt_spin f Ex.sBX Ex.bId Ex.xId (by decide) (by decide)
    (by decide) (by decide) (by decide)

/-! ## Claim C4 — constant folding of the logical opcodes -/

theorem ivalOf_eq {s : St} {i : Nat} {n : Node} (h : s.node? i = some n) :
    ivalOf s i = n.ival := by simp [ivalOf, h]

theorem fvalOf_eq {s : St} {i : Nat} {n : Node} (h : s.node? i = some n) :
    fvalOf s i = n.fval := by simp [fvalOf, h]

theorem lvl_eq {s : St} {i : Nat} {n : Node} (h : s.node? i = some n) :
    lvl s i = n.level := by simp [lvl, h]

/-- Branch unfolding for `And`/`Nand`. -/
theorem makeOp_andnand_unfold {op : Op} {s : St} (f : Nat) (a b : Nat)
    (iv : Int) (fv : ℚ) (hop : op = .And ∨ op = .Nand) :
    makeOp (f + 1) op [a, b] iv fv s =
      rbind (asT f a .Bool s) fun (p1 : Nat × St) =>
      (match p1.2.node? b with
       | none => .fatal
       | some nb => makeRest f op nb.ty [p1.1, b] iv fv p1.2) := by
  rcases hop with h | h <;> subst h <;> rw [makeOp]

/-- Stage 2 returns the fold result when every input is constant and the fold
is defined. -/
theorem makeRest_fold2 {s : St} {op : Op} {t : Ty} {a b : Nat} {iv : Int}
    {r : Nat × St} (f : Nat) (fv : ℚ)
    (hall : [a, b].all (fun i => decide (depsOf s i = 0)) = true)
    (hfold : foldConst s op t [a, b] iv = some r) :
    makeRest (f + 1) op t [a, b] iv fv s = .ok r := by
  rw [makeRest]
  rw [if_pos ⟨hall, by simp⟩, hfold]
  intro a1 h
  exact absurd h (by simp)

theorem makeRest_fold1 {s : St} {op : Op} {t : Ty} {a : Nat} {iv : Int}
    {r : Nat × St} (f : Nat) (fv : ℚ)
    (hall : [a].all (fun i => decide (depsOf s i = 0)) = true)
    (hfold : foldConst s op t [a] iv = some r) :
    makeRest (f + 1) op t [a] iv fv s = .ok r := by
  rw [makeRest]
  rw [if_pos ⟨hall, by simp⟩, hfold]

/-- Claim C4: with every input of `deps == 0`, the folds are:
`And(g, v)` is `v`'s value when `g.ival` is nonzero, else a zero of `v`'s
type; `Nand(g, v)` is the same with the guard test inverted; `Or` is bitwise
OR of the `ival`s when the result type is `Int`, and the arithmetic sum of the
`fval`s when the result type is `Float`. -/
theorem C4_theorem :
    (∀ (f : Nat) (s : St) (g v : Nat) (iv : Int) (fv : ℚ) (ng nv : Node),
        s.node? g = some ng → ng.ty = .Bool → ng.deps = 0 →
        s.node? v = some nv → nv.deps = 0 →
        makeOp (f + 2) .And [g, v] iv fv s =
          .ok (if nv.ty = .Float then
                 mkFloatConst (if ng.ival ≠ 0 then nv.fval else 0) s
               else mkIntConst (if ng.ival ≠ 0 then nv.ival else 0) s)) ∧
    (∀ (f : Nat) (s : St) (g v : Nat) (iv : Int) (fv : ℚ) (ng nv : Node),
        s.node? g = some ng → ng.ty = .Bool → ng.deps = 0 →
        s.node? v = some nv → nv.deps = 0 →
        makeOp (f + 2) .Nand [g, v] iv fv s =
          .ok (if nv.ty = .Float then
                 mkFloatConst (if ng.ival = 0 then nv.fval else 0) s
               else mkIntConst (if ng.ival = 0 then nv.ival else 0) s)) ∧
    (∀ (f : Nat) (s : St) (a b : Nat) (iv : Int) (fv : ℚ) (na nb : Node),
        s.node? a = some na → na.ty = .Int → na.deps = 0 →
        s.node? b = some nb → nb.ty = .Int → nb.deps = 0 →
        makeOp (f + 2) .Or [a, b] iv fv s =
          .ok (mkIntConst (Int.lor na.ival nb.ival) s)) ∧
    (∀ (f : Nat) (s : St) (a b : Nat) (iv : Int) (fv : ℚ) (na nb : Node),
        s.node? a = some na → na.ty = .Float → na.deps = 0 →
        s.node? b = some nb → nb.ty = .Float → nb.deps = 0 →
        makeOp (f + 2) .Or [a, b] iv fv s =
          .ok (mkFloatConst (na.fval + nb.fval) s)) := by
  have hAndNand : ∀ (op : Op), (op = .And ∨ op = .Nand) →
      ∀ (f : Nat) (s : St) (g v : Nat) (iv : Int) (fv : ℚ) (ng nv : Node),
        s.node? g = some ng → ng.ty = .Bool → ng.deps = 0 →
        s.node? v = some nv → nv.deps = 0 →
        makeOp (f + 2) op [g, v] iv fv s =
          rbind (.ok (foldConst s op nv.ty [g, v] iv))
            (fun o => match o with | some r => .ok r | none => .spin) := by
    intro op hop f s g v iv fv ng nv hng htg hdg hnv hdv
    rw [makeOp_andnand_unfold (f + 1) g v iv fv hop,
        asT_id f hng htg, rbind_ok, hnv]
    have hall : [g, v].all (fun i => decide (depsOf s i = 0)) = true := by
      simp [depsOf_eq hng, depsOf_eq hnv, hdg, hdv]
    cases hfold : foldConst s op nv.ty [g, v] iv with
    | some r => exact makeRest_fold2 (f := f) fv hall hfold
    | none =>
      exfalso
      rcases hop with h | h <;> subst h <;> simp [foldConst] at hfold
  refine ⟨?_, ?_, ?_, ?_⟩
  · intro f s g v iv fv ng nv hng htg hdg hnv hdv
    rw [hAndNand .And (Or.inl rfl) f s g v iv fv ng nv hng htg hdg hnv hdv]
    have : foldConst s .And nv.ty [g, v] iv =
        some (if nv.ty = .Float then
                mkFloatConst (if ivalOf s g ≠ 0 then fvalOf s v else 0) s
              else mkIntConst (if ivalOf s g ≠ 0 then ivalOf s v else 0) s) := rfl
    rw [this, ivalOf_eq hng, fvalOf_eq hnv, ivalOf_eq hnv]
    rfl
  · intro f s g v iv fv ng nv hng htg hdg hnv hdv
    rw [hAndNand .Nand (Or.inr rfl) f s g v iv fv ng nv hng htg hdg hnv hdv]
    have : foldConst s .Nand nv.ty [g, v] iv =
        some (if nv.ty = .Float then
                mkFloatConst (if ivalOf s g = 0 then fvalOf s v else 0) s
              else mkIntConst (if ivalOf s g = 0 then ivalOf s v else 0) s) := rfl
    rw [this, ivalOf_eq hng, fvalOf_eq hnv, ivalOf_eq hnv]
    rfl
  · intro f s a b iv fv na nb hna hta hda hnb htb hdb
    rw [makeOp_or_unfold (f + 1) iv fv hna hnb]
    have hcoe : orCoerceTy na.ty nb.ty = Ty.Int := by
      rw [orCoerceTy, hta, htb]; decide
    rw [hcoe, asT_id f hna hta, rbind_ok, asT_id f hnb htb, rbind_ok]
    have hall : [a, b].all (fun i => decide (depsOf s i = 0)) = true := by
      simp [depsOf_eq hna, depsOf_eq hnb, hda, hdb]
    have hfold : foldConst s .Or .Int [a, b] iv =
        some (mkIntConst (Int.lor (ivalOf s a) (ivalOf s b)) s) := rfl
    rw [makeRest_fold2 (f := f) fv hall hfold,
        ivalOf_eq hna, ivalOf_eq hnb]
  · intro f s a b iv fv na nb hna hta hda hnb htb hdb
    rw [makeOp_or_unfold (f + 1) iv fv hna hnb]
    have hcoe : orCoerceTy na.ty nb.ty = Ty.Float := by
      rw [orCoerceTy, hta, htb]; decide
    rw [hcoe, asT_id f hna hta, rbind_ok, asT_id f hnb htb, rbind_ok]
    have hall : [a, b].all (fun i => decide (depsOf s i = 0)) = true := by
      simp [depsOf_eq hna, depsOf_eq hnb, hda, hdb]
    have hfold : foldConst s .Or .Float [a, b] iv =
        some (mkFloatConst (fvalOf s a + fvalOf s b) s) := rfl
    rw [makeRest_fold2 (f := f) fv hall hfold,
        fvalOf_eq hna, fvalOf_eq hnb]

/-- The `Bool`-typed guard node `NEQ(1.0f, 0.0f)` of `Ex.sB`, written out. -/
def bNodeEx : Node :=
  { ty := .Bool, op := .NEQ, inputs := [0, 1], outputs := [], ival := 0, fval := 0,
    deps := 0, level := 0, reg := -1, marked := false }

/-- Witness for `C4_theorem`: the guard `NEQ(1.0f, 0.0f)` (a `deps = 0` `Bool`
node whose `ival` is 0) with the int constant 5, and `Or` folds on the int
constants 3, 5 and on the float constants 1.0, 0.0. -/
theorem C4_witness :
    makeOp 12 .And [Ex.bId, (mkIntConst 5 Ex.sB).1] 0 0 (mkIntConst 5 Ex.sB).2 =
      .ok (mkIntConst 0 (mkIntConst 5 Ex.sB).2) ∧
    makeOp 12 .Nand [Ex.bId, (mkIntConst 5 Ex.sB).1] 0 0 (mkIntConst 5 Ex.sB).2 =
      .ok (mkIntConst 5 (mkIntConst 5 Ex.sB).2) ∧
    makeOp 12 .Or [(mkIntConst 3 Ex.sB).1, (mkIntConst 5 (mkIntConst 3 Ex.sB).2).1]
        0 0 (mkIntConst 5 (mkIntConst 3 Ex.sB).2).2 =
      .ok (mkIntConst 7 (mkIntConst 5 (mkIntConst 3 Ex.sB).2).2) ∧
    makeOp 12 .Or [Ex.pOne.1, Ex.pZero.1] 0 0 Ex.sB =
      .ok (mkFloatConst 1 Ex.sB) := by
  refine ⟨?_, ?_, ?_, ?_⟩
  · have h := C4_theorem.1 10 (mkIntConst 5 Ex.sB).2 Ex.bId (mkIntConst 5 Ex.sB).1
      0 0 bNodeEx (intConstNode 5) (by decide) (by decide) (by decide) (by decide)
      (by decide)
    exact h.trans (by decide)
  · have h := C4_theorem.2.1 10 (mkIntConst 5 Ex.sB).2 Ex.bId (mkIntConst 5 Ex.sB).1
      0 0 bNodeEx (intConstNode 5) (by decide) (by decide) (by decide) (by decide)
      (by decide)
    exact h.trans (by decide)
  · have h := C4_theorem.2.2.1 10 (mkIntConst 5 (mkIntConst 3 Ex.sB).2).2
      (mkIntConst 3 Ex.sB).1 (mkIntConst 5 (mkIntConst 3 Ex.sB).2).1
      0 0 (intConstNode 3) (intConstNode 5) (by decide) (by decide) (by decide)
      (by decide) (by decide) (by decide)
    exact h.trans (by decide)
  · have h := C4_theorem.2.2.2 10 Ex.sB Ex.pOne.1 Ex.pZero.1
      0 0 { floatConstNode 1 with outputs := [2] }
      { floatConstNode 0 with outputs := [2] } (by decide) (by decide) (by decide)
      (by decide) (by decide) (by decide)
    have hv : ({ floatConstNode 1 with outputs := [2] } : Node).fval +
        ({ floatConstNode 0 with outputs := [2] } : Node).fval = 1 := by
      norm_num [floatConstNode]
    rw [hv] at h
    exact h

/-! ## Claim C3 — distributing `Times` over `Plus` -/

namespace Ex

/-! The build for scenario `Times(Plus(VarX, VarY), make(3))`. -/

def rC3x : Res (Nat × St) := makeOp 30 .VarX [] 0 0 emptySt
def rC3y : Res (Nat × St) := makeOp 30 .VarY [] 0 0 (okSt rC3x)
def rC3p : Res (Nat × St) := makeOp 30 .Plus [okId rC3x, okId rC3y] 0 0 (okSt rC3y)
def pC3c : Nat × St := mkIntConst 3 (okSt rC3p)
def rC3 : Res (Nat × St) := makeOp 30 .Times [okId rC3p, pC3c.1] 0 0 pC3c.2
def sC3 : St := okSt rC3
def rC3tx : Res (Nat × St) := makeOp 30 .Times [okId rC3x, pC3c.1] 0 0 sC3
def rC3ty : Res (Nat × St) := makeOp 30 .Times [okId rC3y, pC3c.1] 0 0 (okSt rC3tx)
def rC3plus : Res (Nat × St) :=
  makeOp 30 .Plus [okId rC3tx, okId rC3ty] 0 0 (okSt rC3ty)

end Ex

/-- Claim C3: `make(Times, make(Plus, VarX, VarY), make(3))` returns (the
distribute rewrite fires, because `level(VarY) = 2 < level(VarX) = 3` and the
constant has level 0); the returned node is a `Plus` whose two inputs are the
nodes returned by `make(Times, VarX, make(3))` and `make(Times, VarY,
make(3))` (each of which the `TimesImm` fusion turns into a `TimesImm` node
with immediate 3), and re-running the full claimed expression
`make(Plus, make(Times, VarX, make(3)), make(Times, VarY, make(3)))` on the
resulting store returns the identical node with the store unchanged (CSE). -/
theorem C3_theorem :
    Ex.rC3 = .ok (okId Ex.rC3, Ex.sC3) ∧
    opOf Ex.sC3 (okId Ex.rC3) = Op.Plus ∧
    Ex.rC3tx = .ok (okId Ex.rC3tx, Ex.sC3) ∧
    Ex.rC3ty = .ok (okId Ex.rC3ty, Ex.sC3) ∧
    inputsOf Ex.sC3 (okId Ex.rC3) = [okId Ex.rC3tx, okId Ex.rC3ty] ∧
    opOf Ex.sC3 (okId Ex.rC3tx) = Op.TimesImm ∧
    ivalOf Ex.sC3 (okId Ex.rC3tx) = 3 ∧
    inputsOf Ex.sC3 (okId Ex.rC3tx) = [okId Ex.rC3x] ∧
    Ex.rC3plus = .ok (okId Ex.rC3, Ex.sC3) ∧
    lvl Ex.sC3 (okId Ex.rC3y) = 2 ∧ lvl Ex.sC3 (okId Ex.rC3x) = 3 ∧
    lvl Ex.sC3 Ex.pC3c.1 = 0 := by
  refine ⟨by decide, by decide, by decide, by decide, by decide, by decide,
    by decide, by decide, by decide, by decide, by decide, by decide⟩

/-! ## Claim C6 — the Int constant is summed and placed outermost -/

/-- Branch unfolding for `rebalanceSum` on a looked-up node. -/
theorem rebalance_unfold {s : St} {nid : Nat} {n : Node} (f : Nat)
    (hn : s.node? nid = some n) :
    rebalance (f + 1) nid s =
      (if ¬(n.op = .Plus ∨ n.op = .Minus ∨ n.op = .PlusImm) then .ok (nid, s)
       else
         rbind (collectS f nid true s) fun (p : List (Nat × Bool) × St) =>
         match selSort p.2 (p.1.filter (fun q => !(decide (opOf p.2 q.1 = Op.Const)))) with
         | [] => .fatal
         | t0 :: rest =>
           rbind (if n.ty = .Float then
                    floatWrap f
                      (sumConstsF p.2 (p.1.filter (fun q => decide (opOf p.2 q.1 = Op.Const))))
                      t0.1 t0.2 p.2
                  else .ok (t0.1, p.2)) fun (p2 : Nat × St) =>
           rbind (rebuildLoop f rest p2.1 t0.2 p2.2) fun (p3 : (Nat × Bool) × St) =>
           if n.ty = .Int then
             intWrap f
               (sumConstsI p3.2 (p.1.filter (fun q => decide (opOf p.2 q.1 = Op.Const))))
               p3.1.1 p3.1.2 p3.2
           else .ok (p3.1.1, p3.2)) := by
  rw [rebalance, hn]

namespace Ex

/-! The build for scenario `rebalanceSum(Plus(make(1), Plus(VarX, make(2))))`. -/

def rC6x : Res (Nat × St) := makeOp 40 .VarX [] 0 0 emptySt
def pC6two : Nat × St := mkIntConst 2 (okSt rC6x)
def rC6inner : Res (Nat × St) := makeOp 40 .Plus [okId rC6x, pC6two.1] 0 0 pC6two.2
def pC6one : Nat × St := mkIntConst 1 (okSt rC6inner)
def rC6outer : Res (Nat × St) := makeOp 40 .Plus [pC6one.1, okId rC6inner] 0 0 pC6one.2
def rC6reb : Res (Nat × St) := rebalance 40 (okId rC6outer) (okSt rC6outer)

end Ex

/-- Claim C6: on an `Int`-typed sum node, `rebalanceSum` sums the constant
terms into the single value `c = sumConstsI` and, after rebuilding the
non-constant terms into an accumulator, applies `intWrap`: nothing when
`c = 0`, `PlusImm(acc, c)` when the accumulated sum is positive, and
`Minus(make(c), acc)` when it is negative — so the constant is outermost.
Concretely, `rebalanceSum(Plus(make(1), Plus(VarX, make(2))))` returns
`PlusImm(VarX, 3)`. -/
theorem C6_theorem :
    (∀ (f : Nat) (s : St) (nid : Nat) (n : Node),
        s.node? nid = some n →
        (n.op = .Plus ∨ n.op = .Minus ∨ n.op = .PlusImm) → n.ty = .Int →
        rebalance (f + 1) nid s =
          rbind (collectS f nid true s) fun (p : List (Nat × Bool) × St) =>
          match selSort p.2 (p.1.filter (fun q => !(decide (opOf p.2 q.1 = Op.Const)))) with
          | [] => .fatal
          | t0 :: rest =>
            rbind (rebuildLoop f rest t0.1 t0.2 p.2) fun (p3 : (Nat × Bool) × St) =>
            intWrap f
              (sumConstsI p3.2 (p.1.filter (fun q => decide (opOf p.2 q.1 = Op.Const))))
              p3.1.1 p3.1.2 p3.2) ∧
    (∀ (f : Nat) (c : Int) (acc : Nat) (accPos : Bool) (s : St),
        intWrap (f + 1) c acc accPos s =
          if c = 0 then .ok (acc, s)
          else if accPos then makeOp f .PlusImm [acc] c 0 s
          else makeOp f .Minus [(mkIntConst c s).1, acc] 0 0 (mkIntConst c s).2) ∧
    (Ex.rC6reb = .ok (okId Ex.rC6reb, okSt Ex.rC6reb) ∧
     opOf (okSt Ex.rC6reb) (okId Ex.rC6reb) = Op.PlusImm ∧
     ivalOf (okSt Ex.rC6reb) (okId Ex.rC6reb) = 3 ∧
     inputsOf (okSt Ex.rC6reb) (okId Ex.rC6reb) = [okId Ex.rC6x]) := by
  refine ⟨?_, ?_, ?_⟩
  · intro f s nid n hn hop hty
    rw [rebalance_unfold f hn, if_neg (not_not_intro hop)]
    simp only [hty, eq_false (by decide : ¬ ((Ty.Int : Ty) = Ty.Float)), if_false,
      rbind_ok, reduceIte]
  · intro f c acc accPos s
    rfl
  · exact ⟨by decide, by decide, by decide, by decide⟩

/-- Witness for `C6_theorem`: its general part applied to the concrete sum
`Plus(make(1), Plus(VarX, make(2)))`. -/
theorem C6_witness :
    rebalance 40 (okId Ex.rC6outer) (okSt Ex.rC6outer) =
      rbind (collectS 39 (okId Ex.rC6outer) true (okSt Ex.rC6outer))
        (fun (p : List (Nat × Bool) × St) =>
          match selSort p.2 (p.1.filter (fun q => !(decide (opOf p.2 q.1 = Op.Const)))) with
          | [] => .fatal
          | t0 :: rest =>
            rbind (rebuildLoop 39 rest t0.1 t0.2 p.2) fun (p3 : (Nat × Bool) × St) =>
            intWrap 39
              (sumConstsI p3.2 (p.1.filter (fun q => decide (opOf p.2 q.1 = Op.Const))))
              p3.1.1 p3.1.2 p3.2) := by
  exact C6_theorem.1 39 (okSt Ex.rC6outer) (okId Ex.rC6outer)
    { ty := .Int, op := .Plus, inputs := [3, 2], outputs := [], ival := 0, fval := 0,
      deps := 4, level := 3, reg := -1, marked := false }
    (by decide) (by decide) (by decide)

/-! ## Claim C1 — comparison typing -/

/-- Full-body unfolding of `makeRest` at nonzero fuel. -/
theorem makeRest_unfold (f : Nat) (op : Op) (t : Ty) (inputs : List Nat)
    (iv : Int) (fv : ℚ) (s : St) :
    makeRest (f + 1) op t inputs iv fv s =
      (match (if (inputs.all fun i => decide (depsOf s i = 0)) = true ∧ inputs ≠ [] then
                foldConst s op t inputs iv
              else none : Option (Nat × St)) with
       | some r => Res.ok r
       | none =>
         if op = Op.NoOp then
           match inputs with
           | [a] => Res.ok (a, s)
           | _ => Res.fatal
         else if op = Op.Divide ∧ lvl s (inputs.getD 1 0) < lvl s (inputs.getD 0 0) then
           match mkFloatConst 1 s with
           | (one, s1) =>
             rbind (makeOp f .Divide [one, inputs.getD 1 0] 0 0 s1) fun (inv, s2) =>
             makeOp f .Times [inputs.getD 0 0, inv] 0 0 s2
         else if op = Op.Times then
           match distributeView s inputs with
           | some v =>
             rbind (makeOp f .Times [v.1, v.2.2] 0 0 s) fun (xb, s1) =>
             rbind (makeOp f .Times [v.2.1, v.2.2] 0 0 s1) fun (ab, s2) =>
             makeOp f .Plus [xb, ab] 0 0 s2
           | none =>
             match timesPlusImmView s inputs with
             | some v =>
               rbind (makeOp f .Times [v.1, v.2.1] 0 0 s) fun (yb, s1) =>
               match mkIntConst v.2.2 s1 with
               | (kc, s2) =>
                 rbind (makeOp f .Times [v.2.1, kc] 0 0 s2) fun (bk, s3) =>
                 makeOp f .Plus [yb, bk] 0 0 s3
             | none =>
               match reassocView s inputs with
               | some v =>
                 rbind (makeOp f .Times [v.2.1, v.2.2] 0 0 s) fun (ab, s1) =>
                 makeOp f .Times [v.1, ab] 0 0 s1
               | none => makeTail f op t inputs iv fv s
         else makeTail f op t inputs iv fv s) := rfl

/-- One-step reduction of `makeTail` at nonzero fuel, once the rebalancing of
the inputs is known to have delivered `(ins, s1)`. -/
theorem makeTail_step {op : Op} {inputs ins : List Nat} {s s1 : St}
    (f : Nat) (t : Ty) (iv : Int) (fv : ℚ)
    (hm : (if op = .Plus ∨ op = .Minus ∨ op = .PlusImm then Res.ok (inputs, s)
           else mapRebalance f inputs s) = Res.ok (ins, s1)) :
    makeTail (f + 1) op t inputs iv fv s =
      (if op = .VarX ∨ op = .VarY ∨ op = .VarT ∨ op = .VarC then
         match alookup s1.varInstances op with
         | some v => Res.ok (v, s1)
         | none =>
           match construct t op [] 0 0 s1 with
           | (id, s2) =>
             Res.ok (id, { s2 with varInstances := s2.varInstances ++ [(op, id)] })
       else if op = .UnboundVar then Res.ok (construct t op [] 0 0 s1)
       else if op = .Load ∨ op = .LoadImm then
         match loadFuseView s1 ins iv with
         | some q => makeOp f .LoadImm [q.1] q.2 0 s1
         | none => Res.ok (cseOrConstruct s1 op t ins iv fv)
       else if op = .Times ∧ t = .Int then
         match timesImmView s1 ins with
         | some q => makeOp f .TimesImm [q.1] q.2 0 s1
         | none => Res.ok (cseOrConstruct s1 op t ins iv fv)
       else Res.ok (cseOrConstruct s1 op t ins iv fv)) := by
  rw [makeTail, hm, rbind_ok]

/-- A CSE hit has exactly the requested signature; in particular its type is
the requested type. -/
theorem cseScan_ty {s : St} {cands : List Nat} {op : Op} {t : Ty}
    {inputs : List Nat} {iv : Int} {fv : ℚ} {cand : Nat}
    (h : cseScan s cands op t inputs iv fv = some cand) :
    ∃ n, s.node? cand = some n ∧ n.ty = t ∧ n.op = op ∧ n.inputs = inputs ∧
      n.ival = iv ∧ n.fval = fv := by
  induction cands with
  | nil => exact Option.noConfusion h
  | cons c0 rest ih =>
    rw [cseScan] at h
    cases hn : s.node? c0 with
    | none =>
      rw [hn] at h
      exact ih h
    | some n =>
      rw [hn] at h
      replace h : (if n.ival = iv ∧ n.fval = fv ∧ n.op = op ∧ n.ty = t ∧
          n.inputs = inputs then some c0
        else cseScan s rest op t inputs iv fv) = some cand := h
      by_cases hc : n.ival = iv ∧ n.fval = fv ∧ n.op = op ∧ n.ty = t ∧ n.inputs = inputs
      · rw [if_pos hc] at h
        cases h
        exact ⟨n, hn, hc.2.2.2.1, hc.2.2.1, hc.2.2.2.2, hc.1, hc.2.1⟩
      · rw [if_neg hc] at h
        exact ih h

/-- The type of the node delivered by the CSE-or-construct tail is the
requested type. -/
theorem tyOf_cseOrConstruct (s : St) (op : Op) (t : Ty) (ins : List Nat)
    (iv : Int) (fv : ℚ) :
    tyOf (cseOrConstruct s op t ins iv fv).2 (cseOrConstruct s op t ins iv fv).1 = t := by
  cases hc : cseFind s op t ins iv fv with
  | some cand =>
    have heq : cseOrConstruct s op t ins iv fv = (cand, s) := by
      rw [cseOrConstruct, hc]
    rw [heq]
    cases ins with
    | nil =>
      replace hc : (none : Option Nat) = some cand := hc
      exact Option.noConfusion hc
    | cons i0 rest =>
      replace hc : cseScan s (outputsOf s i0) op t (i0 :: rest) iv fv = some cand := hc
      rcases cseScan_ty hc with ⟨n, hn, hty, _⟩
      simpa [tyOf_eq hn] using hty
  | none =>
    have heq : cseOrConstruct s op t ins iv fv = construct t op ins iv fv s := by
      rw [cseOrConstruct, hc]
    rw [heq]
    have h := construct_new_core t op ins iv fv s
    rw [construct_fst]
    cases hn : (construct t op ins iv fv s).2.node? s.nodes.length with
    | none => rw [hn] at h; exact absurd h (by simp)
    | some n' =>
      rw [hn] at h
      simp only [Option.map_some'] at h
      rw [tyOf_eq hn]
      exact congrArg (fun q => q.1) (Option.some.injEq _ _ ▸ h)

/-- Through `makeTail`, an opcode that is not uniqued and not fused yields a
node of the requested type. -/
theorem makeTail_ty {op : Op} {t : Ty} {inputs : List Nat} {iv : Int} {fv : ℚ}
    {s : St} {r : Nat} {s' : St} (g : Nat)
    (h1 : ¬(op = .VarX ∨ op = .VarY ∨ op = .VarT ∨ op = .VarC))
    (h2 : op ≠ .UnboundVar)
    (h3 : ¬(op = .Load ∨ op = .LoadImm))
    (h4 : ¬(op = .Times ∧ t = .Int))
    (h : makeTail g op t inputs iv fv s = .ok (r, s')) :
    tyOf s' r = t := by
  cases g with
  | zero => exact Res.noConfusion h
  | succ g =>
    cases hm : (if op = .Plus ∨ op = .Minus ∨ op = .PlusImm then Res.ok (inputs, s)
                else mapRebalance g inputs s) with
    | fatal =>
      rw [makeTail, hm, rbind_fatal] at h
      exact Res.noConfusion h
    | spin =>
      rw [makeTail, hm, rbind_spin] at h
      exact Res.noConfusion h
    | ok p =>
      obtain ⟨ins, s1⟩ := p
      rw [makeTail_step g t iv fv hm, if_neg h1, if_neg h2, if_neg h3, if_neg h4] at h
      have hp : cseOrConstruct s1 op t ins iv fv = (r, s') := by
        cases hcc : cseOrConstruct s1 op t ins iv fv
        rw [hcc] at h
        cases h
        rfl
      have := tyOf_cseOrConstruct s1 op t ins iv fv
      rw [hp] at this
      exact this

/-- Through `makeRest`, an opcode with no fold and no strength-reduction rule
reduces to `makeTail`. -/
theorem makeRest_plain {op : Op} {t : Ty} {inputs : List Nat} {iv : Int}
    {fv : ℚ} {s : St} {r : Nat} {s' : St} (g : Nat)
    (hfold : foldConst s op t inputs iv = none)
    (h1 : op ≠ .NoOp) (h2 : op ≠ .Divide) (h3 : op ≠ .Times)
    (h : makeRest (g + 1) op t inputs iv fv s = .ok (r, s')) :
    makeTail g op t inputs iv fv s = .ok (r, s') := by
  rw [makeRest_unfold] at h
  have hsc : (if (inputs.all fun i => decide (depsOf s i = 0)) = true ∧ inputs ≠ [] then
      foldConst s op t inputs iv else none) = none := by
    split
    · exact hfold
    · rfl
  rw [hsc, if_neg h1, if_neg (fun hc => h2 hc.1), if_neg h3] at h
  exact h

/-- Claim C1 (amended): a comparison that returns yields a `Bool`-typed node,
and the common type both operands are coerced to beforehand is `Float` when
either operand is `Float` and `Bool` (not `Int`) otherwise. -/
theorem C1_theorem (f : Nat) (s : St) (op : Op) (a b : Nat) (iv : Int) (fv : ℚ)
    (na nb : Node) (r : Nat) (s' : St)
    (hop : op = .LT ∨ op = .GT ∨ op = .LTE ∨ op = .GTE ∨ op = .EQ ∨ op = .NEQ)
    (hna : s.node? a = some na) (hnb : s.node? b = some nb)
    (hok : makeOp (f + 1) op [a, b] iv fv s = .ok (r, s')) :
    tyOf s' r = Ty.Bool ∧
    cmpCoerceTy na.ty nb.ty =
      (if na.ty = .Float ∨ nb.ty = .Float then .Float else .Bool) ∧
    ∃ (a' b' : Nat) (s1 s2 : St),
      asT f a (cmpCoerceTy na.ty nb.ty) s = .ok (a', s1) ∧
      asT f b (cmpCoerceTy na.ty nb.ty) s1 = .ok (b', s2) ∧
      makeRest f op .Bool [a', b'] iv fv s2 = .ok (r, s') := by
  rw [makeOp_cmp_unfold f iv fv hop hna hnb] at hok
  cases h1 : asT f a (cmpCoerceTy na.ty nb.ty) s with
  | fatal => rw [h1] at hok; exact absurd hok (by simp [rbind])
  | spin => rw [h1] at hok; exact absurd hok (by simp [rbind])
  | ok p1 =>
    obtain ⟨a', s1⟩ := p1
    rw [h1, rbind_ok] at hok
    cases h2 : asT f b (cmpCoerceTy na.ty nb.ty) s1 with
    | fatal => rw [h2] at hok; exact absurd hok (by simp [rbind])
    | spin => rw [h2] at hok; exact absurd hok (by simp [rbind])
    | ok p2 =>
      obtain ⟨b', s2⟩ := p2
      rw [h2, rbind_ok] at hok
      refine ⟨?_, rfl, a', b', s1, s2, rfl, h2, hok⟩
      cases f with
      | zero => exact Res.noConfusion hok
      | succ g =>
        have hfold : foldConst s2 op .Bool [a', b'] iv = none := by
          rcases hop with h | h | h | h | h | h <;> subst h <;> rfl
        have hmt := makeRest_plain g hfold
          (by rcases hop with h | h | h | h | h | h <;> subst h <;> decide)
          (by rcases hop with h | h | h | h | h | h <;> subst h <;> decide)
          (by rcases hop with h | h | h | h | h | h <;> subst h <;> decide) hok
        exact makeTail_ty g
          (by rcases hop with h | h | h | h | h | h <;> subst h <;> decide)
          (by rcases hop with h | h | h | h | h | h <;> subst h <;> decide)
          (by rcases hop with h | h | h | h | h | h <;> subst h <;> decide)
          (fun hc => Ty.noConfusion hc.2) hmt

/-- Claim C1, counterexample.  `EQ` on two copies of the `Bool` node
`NEQ(1.0f, 0.0f)` returns (no fatal error); neither operand is `Float`, yet
the operands are not promoted to `Int`: the returned `EQ` node's inputs are
the original `Bool`-typed node unchanged. -/
theorem C1_counterexample :
    Ex.rEQ = .ok (okId Ex.rEQ, okSt Ex.rEQ) ∧
    tyOf Ex.sB Ex.bId = Ty.Bool ∧
    opOf (okSt Ex.rEQ) (okId Ex.rEQ) = Op.EQ ∧
    tyOf (okSt Ex.rEQ) (okId Ex.rEQ) = Ty.Bool ∧
    inputsOf (okSt Ex.rEQ) (okId Ex.rEQ) = [Ex.bId, Ex.bId] ∧
    tyOf (okSt Ex.rEQ) Ex.bId = Ty.Bool ∧
    ¬ tyOf (okSt Ex.rEQ) Ex.bId = Ty.Int := by
  refine ⟨by decide, by decide, by decide, by decide, by decide, by decide, by decide⟩

/-- Witness for `C1_theorem`: the comparison `EQ(b, b)` on the concrete
`Bool` node `b = NEQ(1.0f, 0.0f)`. -/
theorem C1_witness :
    tyOf (okSt Ex.rEQ) (okId Ex.rEQ) = Ty.Bool ∧
    cmpCoerceTy bNodeEx.ty bNodeEx.ty =
      (if bNodeEx.ty = .Float ∨ bNodeEx.ty = .Float then .Float else .Bool) ∧
    ∃ (a' b' : Nat) (s1 s2 : St),
      asT 19 Ex.bId (cmpCoerceTy bNodeEx.ty bNodeEx.ty) Ex.sB = .ok (a', s1) ∧
      asT 19 Ex.bId (cmpCoerceTy bNodeEx.ty bNodeEx.ty) s1 = .ok (b', s2) ∧
      makeRest 19 .EQ .Bool [a', b'] 0 0 s2 = .ok (okId Ex.rEQ, okSt Ex.rEQ) :=
  C1_theorem 19 Ex.sB .EQ Ex.bId Ex.bId 0 0 bNodeEx bNodeEx (okId Ex.rEQ)
    (okSt Ex.rEQ) (Or.inr (Or.inr (Or.inr (Or.inr (Or.inl rfl)))))
    (by decide) (by decide) (by decide)

/-! ## Claim C9 — the sum collected by `rebalanceSum` has a non-constant term -/

/-- Bitwise OR of naturals is zero exactly when both sides are. -/
theorem lor_zero_iff (m n : Nat) : m ||| n = 0 ↔ m = 0 ∧ n = 0 := by
  constructor
  · intro h
    constructor
    · refine Nat.zero_of_testBit_eq_false fun i => ?_
      have hb := congrArg (fun x => Nat.testBit x i) h
      simp only [Nat.testBit_lor, Nat.zero_testBit] at hb
      exact (Bool.or_eq_false_iff.mp hb).1
    · refine Nat.zero_of_testBit_eq_false fun i => ?_
      have hb := congrArg (fun x => Nat.testBit x i) h
      simp only [Nat.testBit_lor, Nat.zero_testBit] at hb
      exact (Bool.or_eq_false_iff.mp hb).2
  · rintro ⟨rfl, rfl⟩
    rfl

/-- Total indexing into the store (only used at valid ids). -/
abbrev nodeAt (s : St) (i : Nat) : Node := (s.node? i).getD (intConstNode 0)

/-- Well-formedness of one node of the store, as maintained by the factory:
inputs point to earlier nodes, outputs to later (existing) nodes, `deps` is
what the constructor computed, constants have no dependencies, and a
`Plus`/`Minus`/`PlusImm` node depends on something (else `make` would have
folded it to a constant). -/
abbrev nodeWF (s : St) (i : Nat) (n : Node) : Prop :=
  (∀ j ∈ n.inputs, j < i) ∧
  (∀ j ∈ n.outputs, i < j ∧ j < s.nodes.length) ∧
  n.deps = depsOfInputs s n.inputs (selfDep n.op) ∧
  (n.op = Op.Const → n.deps = 0) ∧
  ((n.op = Op.Plus ∨ n.op = Op.Minus ∨ n.op = Op.PlusImm) → n.deps ≠ 0)

/-- Well-formedness of the whole store. -/
abbrev storeWF (s : St) : Prop :=
  ∀ i ∈ List.range s.nodes.length, nodeWF s i (nodeAt s i)

theorem storeWF_node {s : St} {i : Nat} {n : Node} (hwf : storeWF s)
    (hn : s.node? i = some n) : nodeWF s i n := by
  have hi : i < s.nodes.length := node?_lt_length hn
  have h := hwf i (List.mem_range.mpr hi)
  simpa only [nodeAt, hn, Option.getD_some] using h

/-- `depsOfInputs` only looks at the nodes named by the list. -/
theorem depsOfInputs_congr {s s' : St} {l : List Nat} (d0 : Nat)
    (h : ∀ j ∈ l, s'.node? j = s.node? j) :
    depsOfInputs s' l d0 = depsOfInputs s l d0 := by
  induction l generalizing d0 with
  | nil => rfl
  | cons a as ih =>
    simp only [depsOfInputs, List.foldl_cons]
    rw [h a (List.mem_cons_self a as)]
    exact ih _ (fun j hj => h j (List.mem_cons_of_mem a hj))

/-- Appending a fresh, closed, dependency-free non-sum node (an `Int`
constant, say) preserves the store invariant, whatever happens to the three
uniquing tables. -/
theorem storeWF_append {s : St} (x : Node) (fi : List (ℚ × Nat))
    (ii : List (Int × Nat)) (vi : List (Op × Nat)) (hwf : storeWF s)
    (hin : x.inputs = []) (hout : x.outputs = []) (hdep : x.deps = 0)
    (hself : selfDep x.op = 0)
    (hsum : ¬(x.op = Op.Plus ∨ x.op = Op.Minus ∨ x.op = Op.PlusImm)) :
    storeWF (⟨s.nodes ++ [x], fi, ii, vi⟩ : St) := by
  intro i hi
  rw [List.mem_range] at hi
  have hlen : (⟨s.nodes ++ [x], fi, ii, vi⟩ : St).nodes.length =
      s.nodes.length + 1 := by simp
  rw [hlen] at hi
  rcases Nat.lt_succ_iff_lt_or_eq.mp hi with hlt | heq
  · rcases node?_isSome_iff.mpr hlt with ⟨n, hn⟩
    have hn' : (⟨s.nodes ++ [x], fi, ii, vi⟩ : St).node? i = some n := by
      rw [node?_def]
      rw [List.get?_append hlt]
      exact hn
    obtain ⟨h1, h2, h3, h4, h5⟩ := storeWF_node hwf hn
    simp only [nodeAt, hn', Option.getD_some]
    refine ⟨h1, fun j hj => ⟨(h2 j hj).1, ?_⟩, ?_, h4, h5⟩
    · rw [hlen]
      exact Nat.lt_succ_of_lt (h2 j hj).2
    · rw [h3]
      refine (depsOfInputs_congr _ (fun j hj => ?_)).symm
      rw [node?_def, node?_def]
      exact List.get?_append (lt_trans (h1 j hj) hlt)
  · subst heq
    have hn' : (⟨s.nodes ++ [x], fi, ii, vi⟩ : St).node? s.nodes.length =
        some x := by
      rw [node?_def]
      exact List.get?_concat_length _ _
    simp only [nodeAt, hn', Option.getD_some]
    refine ⟨?_, ?_, ?_, fun _ => hdep, fun hc => absurd hc hsum⟩
    · rw [hin]; intro j hj; exact absurd hj (List.not_mem_nil j)
    · rw [hout]; intro j hj; exact absurd hj (List.not_mem_nil j)
    · rw [hdep, hin, depsOfInputs, List.foldl_nil, hself]

/-- `make(int)` preserves the store invariant. -/
theorem mkIntConst_storeWF (v : Int) {s : St} (hwf : storeWF s) :
    storeWF (mkIntConst v s).2 := by
  cases hl : alookup s.intInstances v with
  | some id => rw [mkIntConst_some hl]; exact hwf
  | none =>
    rw [mkIntConst_none hl]
    exact storeWF_append (intConstNode v) _ _ _ hwf rfl rfl rfl rfl
      (by rintro (h | h | h) <;> exact Op.noConfusion h)

/-- Everything `collectSum` guarantees, in one induction: it only ever adds
nodes to the store (existing ids keep their nodes verbatim), it preserves the
store invariant, and — the point of the claim — on a node with `deps ≠ 0` the
collected term list contains a term whose node is not a `Const`. -/
theorem collectS_props : ∀ (f : Nat) {nid : Nat} {pos : Bool} {s : St}
    {ts : List (Nat × Bool)} {s1 : St},
    collectS f nid pos s = .ok (ts, s1) →
    ((∀ i m, s.node? i = some m → s1.node? i = some m) ∧
     (storeWF s → storeWF s1) ∧
     (storeWF s → ∀ n, s.node? nid = some n → n.deps ≠ 0 →
        ∃ t ∈ ts, ∃ m, s1.node? t.1 = some m ∧ m.op ≠ Op.Const)) := by
  intro f
  induction f with
  | zero =>
    intro nid pos s ts s1 h
    exact Res.noConfusion h
  | succ f ih =>
    intro nid pos s ts s1 h
    cases hn : s.node? nid with
    | none =>
      rw [collectS, hn] at h
      exact Res.noConfusion h
    | some n =>
      obtain ⟨nty, nop, nins, nouts, niv, nfv, ndeps, nlvl, nreg, nmk⟩ := n
      cases nop
      case Plus =>
        rcases nins with _ | ⟨a, _ | ⟨b, _ | ⟨c, rest⟩⟩⟩
        · rw [collectS, hn] at h; exact Res.noConfusion h
        · rw [collectS, hn] at h; exact Res.noConfusion h
        · rw [collectS, hn] at h
          replace h : rbind (collectS f a pos s) (fun p1 =>
              rbind (collectS f b pos p1.2) (fun p2 =>
                Res.ok (p1.1 ++ p2.1, p2.2))) = Res.ok (ts, s1) := h
          cases r1 : collectS f a pos s with
          | fatal => rw [r1, rbind_fatal] at h; exact Res.noConfusion h
          | spin => rw [r1, rbind_spin] at h; exact Res.noConfusion h
          | ok p1 =>
            obtain ⟨ts1, s1t⟩ := p1
            rw [r1, rbind_ok] at h
            replace h : rbind (collectS f b pos s1t) (fun p2 =>
                Res.ok (ts1 ++ p2.1, p2.2)) = Res.ok (ts, s1) := h
            cases r2 : collectS f b pos s1t with
            | fatal => rw [r2, rbind_fatal] at h; exact Res.noConfusion h
            | spin => rw [r2, rbind_spin] at h; exact Res.noConfusion h
            | ok p2 =>
              obtain ⟨ts2, s2t⟩ := p2
              rw [r2, rbind_ok] at h
              replace h : Res.ok (ts1 ++ ts2, s2t) = Res.ok (ts, s1) := h
              injection h with h
              injection h with hts hs
              subst hts
              subst hs
              obtain ⟨m1, w1, n1⟩ := ih r1
              obtain ⟨m2, w2, n2⟩ := ih r2
              refine ⟨fun i mm hm => m2 i mm (m1 i mm hm),
                fun hwf => w2 (w1 hwf), ?_⟩
              intro hwf n2' hn' hdep
              injection hn' with he
              subst he
              replace hdep : ndeps ≠ 0 := hdep
              have h3 := (storeWF_node hwf hn).2.2.1
              replace h3 : ndeps = depsOfInputs s [a, b] (selfDep Op.Plus) := h3
              have hd : ndeps = depsOf s a ||| depsOf s b := by
                rw [h3]; simp [depsOfInputs, depsOf, selfDep]
              have hab : depsOf s a ≠ 0 ∨ depsOf s b ≠ 0 := by
                by_contra hc
                push_neg at hc
                exact hdep (hd.trans ((lor_zero_iff _ _).mpr hc))
              rcases hab with hda | hdb
              · have hna : ∃ na, s.node? a = some na := by
                  cases hx : s.node? a with
                  | none => exact absurd (by simp [depsOf, hx]) hda
                  | some na => exact ⟨na, rfl⟩
                obtain ⟨na, hna⟩ := hna
                have hdna : na.deps ≠ 0 := by rwa [depsOf_eq hna] at hda
                obtain ⟨t, htm, m, hm, hmop⟩ := n1 hwf na hna hdna
                exact ⟨t, List.mem_append.mpr (Or.inl htm), m, m2 t.1 m hm, hmop⟩
              · have hnb : ∃ nb, s.node? b = some nb := by
                  cases hx : s.node? b with
                  | none => exact absurd (by simp [depsOf, hx]) hdb
                  | some nb => exact ⟨nb, rfl⟩
                obtain ⟨nb, hnb⟩ := hnb
                have hdnb : nb.deps ≠ 0 := by rwa [depsOf_eq hnb] at hdb
                obtain ⟨t, htm, m, hm, hmop⟩ :=
                  n2 (w1 hwf) nb (m1 b nb hnb) hdnb
                exact ⟨t, List.mem_append.mpr (Or.inr htm), m, hm, hmop⟩
        · rw [collectS, hn] at h; exact Res.noConfusion h
      case Minus =>
        rcases nins with _ | ⟨a, _ | ⟨b, _ | ⟨c, rest⟩⟩⟩
        · rw [collectS, hn] at h; exact Res.noConfusion h
        · rw [collectS, hn] at h; exact Res.noConfusion h
        · rw [collectS, hn] at h
          replace h : rbind (collectS f a pos s) (fun p1 =>
              rbind (collectS f b (!pos) p1.2) (fun p2 =>
                Res.ok (p1.1 ++ p2.1, p2.2))) = Res.ok (ts, s1) := h
          cases r1 : collectS f a pos s with
          | fatal => rw [r1, rbind_fatal] at h; exact Res.noConfusion h
          | spin => rw [r1, rbind_spin] at h; exact Res.noConfusion h
          | ok p1 =>
            obtain ⟨ts1, s1t⟩ := p1
            rw [r1, rbind_ok] at h
            replace h : rbind (collectS f b (!pos) s1t) (fun p2 =>
                Res.ok (ts1 ++ p2.1, p2.2)) = Res.ok (ts, s1) := h
            cases r2 : collectS f b (!pos) s1t with
            | fatal => rw [r2, rbind_fatal] at h; exact Res.noConfusion h
            | spin => rw [r2, rbind_spin] at h; exact Res.noConfusion h
            | ok p2 =>
              obtain ⟨ts2, s2t⟩ := p2
              rw [r2, rbind_ok] at h
              replace h : Res.ok (ts1 ++ ts2, s2t) = Res.ok (ts, s1) := h
              injection h with h
              injection h with hts hs
              subst hts
              subst hs
              obtain ⟨m1, w1, n1⟩ := ih r1
              obtain ⟨m2, w2, n2⟩ := ih r2
              refine ⟨fun i mm hm => m2 i mm (m1 i mm hm),
                fun hwf => w2 (w1 hwf), ?_⟩
              intro hwf n2' hn' hdep
              injection hn' with he
              subst he
              replace hdep : ndeps ≠ 0 := hdep
              have h3 := (storeWF_node hwf hn).2.2.1
              replace h3 : ndeps = depsOfInputs s [a, b] (selfDep Op.Minus) := h3
              have hd : ndeps = depsOf s a ||| depsOf s b := by
                rw [h3]; simp [depsOfInputs, depsOf, selfDep]
              have hab : depsOf s a ≠ 0 ∨ depsOf s b ≠ 0 := by
                by_contra hc
                push_neg at hc
                exact hdep (hd.trans ((lor_zero_iff _ _).mpr hc))
              rcases hab with hda | hdb
              · have hna : ∃ na, s.node? a = some na := by
                  cases hx : s.node? a with
                  | none => exact absurd (by simp [depsOf, hx]) hda
                  | some na => exact ⟨na, rfl⟩
                obtain ⟨na, hna⟩ := hna
                have hdna : na.deps ≠ 0 := by rwa [depsOf_eq hna] at hda
                obtain ⟨t, htm, m, hm, hmop⟩ := n1 hwf na hna hdna
                exact ⟨t, List.mem_append.mpr (Or.inl htm), m, m2 t.1 m hm, hmop⟩
              · have hnb : ∃ nb, s.node? b = some nb := by
                  cases hx : s.node? b with
                  | none => exact absurd (by simp [depsOf, hx]) hdb
                  | some nb => exact ⟨nb, rfl⟩
                obtain ⟨nb, hnb⟩ := hnb
                have hdnb : nb.deps ≠ 0 := by rwa [depsOf_eq hnb] at hdb
                obtain ⟨t, htm, m, hm, hmop⟩ :=
                  n2 (w1 hwf) nb (m1 b nb hnb) hdnb
                exact ⟨t, List.mem_append.mpr (Or.inr htm), m, hm, hmop⟩
        · rw [collectS, hn] at h; exact Res.noConfusion h
      case PlusImm =>
        rcases nins with _ | ⟨a, _ | ⟨b, rest⟩⟩
        · rw [collectS, hn] at h; exact Res.noConfusion h
        · rw [collectS, hn] at h
          replace h : rbind (collectS f a pos s) (fun p1 =>
              Res.ok (p1.1 ++ [((mkIntConst niv p1.2).1, true)],
                (mkIntConst niv p1.2).2)) = Res.ok (ts, s1) := h
          cases r1 : collectS f a pos s with
          | fatal => rw [r1, rbind_fatal] at h; exact Res.noConfusion h
          | spin => rw [r1, rbind_spin] at h; exact Res.noConfusion h
          | ok p1 =>
            obtain ⟨ts1, s1t⟩ := p1
            rw [r1, rbind_ok] at h
            replace h : Res.ok (ts1 ++ [((mkIntConst niv s1t).1, true)],
                (mkIntConst niv s1t).2) = Res.ok (ts, s1) := h
            injection h with h
            injection h with hts hs
            subst hts
            subst hs
            obtain ⟨m1, w1, n1⟩ := ih r1
            refine ⟨fun i mm hm => mkIntConst_node?_preserved _ (m1 i mm hm),
              fun hwf => mkIntConst_storeWF _ (w1 hwf), ?_⟩
            intro hwf n2' hn' hdep
            injection hn' with he
            subst he
            replace hdep : ndeps ≠ 0 := hdep
            have h3 := (storeWF_node hwf hn).2.2.1
            replace h3 : ndeps = depsOfInputs s [a] (selfDep Op.PlusImm) := h3
            have hd : ndeps = depsOf s a := by
              rw [h3]; simp [depsOfInputs, depsOf, selfDep]
            have hda : depsOf s a ≠ 0 := hd ▸ hdep
            have hna : ∃ na, s.node? a = some na := by
              cases hx : s.node? a with
              | none => exact absurd (by simp [depsOf, hx]) hda
              | some na => exact ⟨na, rfl⟩
            obtain ⟨na, hna⟩ := hna
            have hdna : na.deps ≠ 0 := by rwa [depsOf_eq hna] at hda
            obtain ⟨t, htm, m, hm, hmop⟩ := n1 hwf na hna hdna
            exact ⟨t, List.mem_append.mpr (Or.inl htm), m,
              mkIntConst_node?_preserved _ hm, hmop⟩
        · rw [collectS, hn] at h; exact Res.noConfusion h
      case Const =>
        rw [collectS, hn] at h
        replace h : Res.ok ([(nid, pos)], s) = Res.ok (ts, s1) := h
        injection h with h
        injection h with hts hs
        subst hts
        subst hs
        refine ⟨fun i mm hm => hm, fun hwf => hwf, ?_⟩
        intro hwf n2' hn' hdep
        injection hn' with he
        subst he
        replace hdep : ndeps ≠ 0 := hdep
        exact absurd ((storeWF_node hwf hn).2.2.2.1 rfl) hdep
      all_goals (
        rw [collectS, hn] at h;
        replace h : Res.ok ([(nid, pos)], s) = Res.ok (ts, s1) := h;
        injection h with h;
        injection h with hts hs;
        subst hts;
        subst hs;
        refine ⟨fun i mm hm => hm, fun hwf => hwf, ?_⟩;
        intro hwf n2' hn' hdep;
        injection hn' with he;
        subst he;
        exact ⟨(nid, pos), List.mem_singleton.mpr rfl, _, hn,
          fun hc => Op.noConfusion hc⟩)

/-- A store holding the two integer constants `2` (id 0) and `3` (id 1). -/
def s9 : St := (mkIntConst 3 (mkIntConst 2 emptySt).2).2

/-- Claim C9: a factory sum node always leaves `rebalanceSum` something
non-constant to work on: (i) `foldConst` is total on two-input `Plus`/`Minus`
and on one-input `PlusImm`; (ii) with every input of `deps == 0` `makeRest`
returns that fold, so an all-constant sum is folded by `make` and the sum
node is never constructed; (iii) a constructed node's `deps` is the OR of its
inputs' `deps` with the opcode's self-bit (nonzero as soon as one input
depends on something); and (iv) on a well-formed store the term list
`collectSum` returns for a `Plus`/`Minus`/`PlusImm` node contains a
non-`Const` term, so the sorted non-constant list whose head `rebalanceSum`
reads unguarded (`nonConstTerms[0]`) is never empty. -/
theorem C9_theorem :
    (∀ (s : St) (op : Op) (t : Ty) (a b : Nat) (iv : Int),
        (op = .Plus ∨ op = .Minus) →
        ((foldConst s op t [a, b] iv).isSome = true ∧
         (foldConst s .PlusImm t [a] iv).isSome = true)) ∧
    (∀ (f : Nat) (s : St) (op : Op) (t : Ty) (a b : Nat) (iv : Int) (fv : ℚ)
        (r : Nat × St),
        depsOf s a = 0 → depsOf s b = 0 →
        foldConst s op t [a, b] iv = some r →
        makeRest (f + 1) op t [a, b] iv fv s = .ok r) ∧
    (∀ (t : Ty) (op : Op) (ins : List Nat) (iv : Int) (fv : ℚ) (s : St),
        depsOf (construct t op ins iv fv s).2 (construct t op ins iv fv s).1 =
          depsOfInputs s ins (selfDep op)) ∧
    (∀ (f : Nat) (s : St) (nid : Nat) (n : Node) (terms : List (Nat × Bool))
        (s1 : St),
        storeWF s → s.node? nid = some n →
        (n.op = .Plus ∨ n.op = .Minus ∨ n.op = .PlusImm) →
        collectS f nid true s = .ok (terms, s1) →
        selSort s1 (terms.filter (fun q => !(decide (opOf s1 q.1 = Op.Const)))) ≠
          []) := by
  refine ⟨?_, ?_, ?_, ?_⟩
  · rintro s op t a b iv (rfl | rfl) <;> exact ⟨rfl, rfl⟩
  · intro f s op t a b iv fv r hda hdb hfold
    exact makeRest_fold2 f fv (by simp [hda, hdb]) hfold
  · intro t op ins iv fv s
    have h := construct_new_core t op ins iv fv s
    rw [construct_fst]
    cases hn : (construct t op ins iv fv s).2.node? s.nodes.length with
    | none => rw [hn] at h; exact absurd h (by simp)
    | some n =>
      rw [hn] at h
      simp only [Option.map_some'] at h
      injection h with h
      rw [depsOf_eq hn]
      exact congrArg (fun q => q.2.2.2.2.2.1) h
  · intro f s nid n terms s1 hwf hn hop hcol
    obtain ⟨-, -, n3⟩ := collectS_props f hcol
    have hdep : n.deps ≠ 0 := (storeWF_node hwf hn).2.2.2.2 hop
    obtain ⟨t0, ht0, m, hm, hmop⟩ := n3 hwf n hn hdep
    intro hempty
    have hmem : t0 ∈ terms.filter (fun q => !(decide (opOf s1 q.1 = Op.Const))) := by
      refine List.mem_filter.mpr ⟨ht0, ?_⟩
      simp [opOf_eq hm, hmop]
    have hlen := selSort_length s1
      (terms.filter (fun q => !(decide (opOf s1 q.1 = Op.Const))))
    rw [hempty] at hlen
    exact List.ne_nil_of_mem hmem (List.length_eq_zero.mp hlen.symm)

/-- Witness for `C9_theorem`: the fold conjuncts at the constant store `s9`
(`make(2)`, `make(3)`), and the collect conjunct at the factory store of the
C5 example, whose `Minus` root collects the non-constant terms
`VarX`, `TimesImm(VarX, 2)`, `VarT`. -/
theorem C9_witness :
    ((foldConst s9 .Plus .Int [0, 1] 0).isSome = true ∧
     (foldConst s9 .PlusImm .Int [0] 0).isSome = true) ∧
    makeRest 6 .Plus .Int [0, 1] 0 0 s9 = .ok (mkIntConst 5 s9) ∧
    depsOf (construct .Int .Plus [0, 1] 0 0 s9).2
        (construct .Int .Plus [0, 1] 0 0 s9).1 =
      depsOfInputs s9 [0, 1] (selfDep .Plus) ∧
    selSort Ex.sC5 (([(0, true), (1, false), (2, false)] : List (Nat × Bool)).filter
        (fun q => !(decide (opOf Ex.sC5 q.1 = Op.Const)))) ≠ [] :=
  ⟨C9_theorem.1 s9 .Plus .Int 0 1 0 (Or.inl rfl),
   C9_theorem.2.1 5 s9 .Plus .Int 0 1 0 0 (mkIntConst 5 s9)
     (by decide) (by decide) (by decide),
   C9_theorem.2.2.1 .Int .Plus [0, 1] 0 0 s9,
   C9_theorem.2.2.2 20 Ex.sC5 4
     ⟨.Int, .Minus, [0, 3], [], 0, 0, 5, 3, -1, false⟩
     [(0, true), (1, false), (2, false)] Ex.sC5
     (by decide) (by decide) (by decide) (by decide)⟩

/-! ## Claim C10 — acyclicity and termination of the inputs traversals -/

/-- With fuel exceeding the node id, `collectSum` cannot run out: every
recursive call is on an input, whose id is strictly smaller on a well-formed
store. -/
theorem collectS_nospin : ∀ (f : Nat) {nid : Nat} {pos : Bool} {s : St},
    storeWF s → nid < f → collectS f nid pos s ≠ .spin := by
  intro f
  induction f with
  | zero =>
    intro nid pos s hwf hf
    exact absurd hf (Nat.not_lt_zero nid)
  | succ f ih =>
    intro nid pos s hwf hf hc
    cases hn : s.node? nid with
    | none =>
      rw [collectS, hn] at hc
      exact Res.noConfusion hc
    | some n =>
      obtain ⟨nty, nop, nins, nouts, niv, nfv, ndeps, nlvl, nreg, nmk⟩ := n
      have hlt := (storeWF_node hwf hn).1
      cases nop
      case Plus =>
        rcases nins with _ | ⟨a, _ | ⟨b, _ | ⟨c, rest⟩⟩⟩
        · rw [collectS, hn] at hc; exact Res.noConfusion hc
        · rw [collectS, hn] at hc; exact Res.noConfusion hc
        · rw [collectS, hn] at hc
          replace hlt : ∀ j ∈ [a, b], j < nid := hlt
          replace hc : rbind (collectS f a pos s) (fun p1 =>
              rbind (collectS f b pos p1.2) (fun p2 =>
                Res.ok (p1.1 ++ p2.1, p2.2))) = Res.spin := hc
          cases r1 : collectS f a pos s with
          | fatal => rw [r1, rbind_fatal] at hc; exact Res.noConfusion hc
          | spin =>
            exact ih hwf (lt_of_lt_of_le (hlt a (by simp))
              (Nat.lt_succ_iff.mp hf)) r1
          | ok p1 =>
            obtain ⟨ts1, s1t⟩ := p1
            rw [r1, rbind_ok] at hc
            replace hc : rbind (collectS f b pos s1t) (fun p2 =>
                Res.ok (ts1 ++ p2.1, p2.2)) = Res.spin := hc
            cases r2 : collectS f b pos s1t with
            | fatal => rw [r2, rbind_fatal] at hc; exact Res.noConfusion hc
            | spin =>
              exact ih ((collectS_props f r1).2.1 hwf)
                (lt_of_lt_of_le (hlt b (by simp)) (Nat.lt_succ_iff.mp hf)) r2
            | ok p2 =>
              rw [r2, rbind_ok] at hc
              exact Res.noConfusion hc
        · rw [collectS, hn] at hc; exact Res.noConfusion hc
      case Minus =>
        rcases nins with _ | ⟨a, _ | ⟨b, _ | ⟨c, rest⟩⟩⟩
        · rw [collectS, hn] at hc; exact Res.noConfusion hc
        · rw [collectS, hn] at hc; exact Res.noConfusion hc
        · rw [collectS, hn] at hc
          replace hlt : ∀ j ∈ [a, b], j < nid := hlt
          replace hc : rbind (collectS f a pos s) (fun p1 =>
              rbind (collectS f b (!pos) p1.2) (fun p2 =>
                Res.ok (p1.1 ++ p2.1, p2.2))) = Res.spin := hc
          cases r1 : collectS f a pos s with
          | fatal => rw [r1, rbind_fatal] at hc; exact Res.noConfusion hc
          | spin =>
            exact ih hwf (lt_of_lt_of_le (hlt a (by simp))
              (Nat.lt_succ_iff.mp hf)) r1
          | ok p1 =>
            obtain ⟨ts1, s1t⟩ := p1
            rw [r1, rbind_ok] at hc
            replace hc : rbind (collectS f b (!pos) s1t) (fun p2 =>
                Res.ok (ts1 ++ p2.1, p2.2)) = Res.spin := hc
            cases r2 : collectS f b (!pos) s1t with
            | fatal => rw [r2, rbind_fatal] at hc; exact Res.noConfusion hc
            | spin =>
              exact ih ((collectS_props f r1).2.1 hwf)
                (lt_of_lt_of_le (hlt b (by simp)) (Nat.lt_succ_iff.mp hf)) r2
            | ok p2 =>
              rw [r2, rbind_ok] at hc
              exact Res.noConfusion hc
        · rw [collectS, hn] at hc; exact Res.noConfusion hc
      case PlusImm =>
        rcases nins with _ | ⟨a, _ | ⟨b, rest⟩⟩
        · rw [collectS, hn] at hc; exact Res.noConfusion hc
        · rw [collectS, hn] at hc
          replace hlt : ∀ j ∈ [a], j < nid := hlt
          replace hc : rbind (collectS f a pos s) (fun p1 =>
              Res.ok (p1.1 ++ [((mkIntConst niv p1.2).1, true)],
                (mkIntConst niv p1.2).2)) = Res.spin := hc
          cases r1 : collectS f a pos s with
          | fatal => rw [r1, rbind_fatal] at hc; exact Res.noConfusion hc
          | spin =>
            exact ih hwf (lt_of_lt_of_le (hlt a (by simp))
              (Nat.lt_succ_iff.mp hf)) r1
          | ok p1 =>
            rw [r1, rbind_ok] at hc
            exact Res.noConfusion hc
        · rw [collectS, hn] at hc; exact Res.noConfusion hc
      all_goals (
        rw [collectS, hn] at hc;
        exact Res.noConfusion hc)

/-- With fuel exceeding the node id, `printExp` cannot run out: it only
recurses on `inputs[0]` and `inputs[1]`, both of smaller id on a well-formed
store. -/
theorem printExpS_nospin : ∀ (f : Nat) {nid : Nat} {s : St},
    storeWF s → nid < f → printExpS f nid s ≠ .spin := by
  intro f
  induction f with
  | zero =>
    intro nid s hwf hf
    exact absurd hf (Nat.not_lt_zero nid)
  | succ f ih =>
    intro nid s hwf hf hc
    have hff : nid ≤ f := Nat.lt_succ_iff.mp hf
    cases hn : s.node? nid with
    | none => rw [printExpS, hn] at hc; exact Res.noConfusion hc
    | some n =>
      obtain ⟨nty, nop, nins, nouts, niv, nfv, ndeps, nlvl, nreg, nmk⟩ := n
      have hlt := (storeWF_node hwf hn).1
      cases nop
      case Plus =>
        rcases nins with _ | ⟨i0, _ | ⟨i1, _ | ⟨i2, rest2⟩⟩⟩
        · rw [printExpS, hn] at hc; exact Res.noConfusion hc
        · rw [printExpS, hn] at hc; exact Res.noConfusion hc
        · rw [printExpS, hn] at hc
          replace hc : rbind (printExpS f i0 s) (fun sa =>
              rbind (printExpS f i1 s) (fun sb =>
                Res.ok ("(" ++ sa ++ "+" ++ sb ++ ")"))) = Res.spin := hc
          cases r1 : printExpS f i0 s with
          | fatal => rw [r1, rbind_fatal] at hc; exact Res.noConfusion hc
          | spin => exact ih hwf (lt_of_lt_of_le (hlt i0 (by simp)) hff) r1
          | ok sa =>
            rw [r1, rbind_ok] at hc
            replace hc : rbind (printExpS f i1 s) (fun sb =>
                Res.ok ("(" ++ sa ++ "+" ++ sb ++ ")")) = Res.spin := hc
            cases r2 : printExpS f i1 s with
            | fatal => rw [r2, rbind_fatal] at hc; exact Res.noConfusion hc
            | spin => exact ih hwf (lt_of_lt_of_le (hlt i1 (by simp)) hff) r2
            | ok sb => rw [r2, rbind_ok] at hc; exact Res.noConfusion hc
        · rw [printExpS, hn] at hc; exact Res.noConfusion hc
      case Minus =>
        rcases nins with _ | ⟨i0, _ | ⟨i1, _ | ⟨i2, rest2⟩⟩⟩
        · rw [printExpS, hn] at hc; exact Res.noConfusion hc
        · rw [printExpS, hn] at hc; exact Res.noConfusion hc
        · rw [printExpS, hn] at hc
          replace hc : rbind (printExpS f i0 s) (fun sa =>
              rbind (printExpS f i1 s) (fun sb =>
                Res.ok ("(" ++ sa ++ "-" ++ sb ++ ")"))) = Res.spin := hc
          cases r1 : printExpS f i0 s with
          | fatal => rw [r1, rbind_fatal] at hc; exact Res.noConfusion hc
          | spin => exact ih hwf (lt_of_lt_of_le (hlt i0 (by simp)) hff) r1
          | ok sa =>
            rw [r1, rbind_ok] at hc
            replace hc : rbind (printExpS f i1 s) (fun sb =>
                Res.ok ("(" ++ sa ++ "-" ++ sb ++ ")")) = Res.spin := hc
            cases r2 : printExpS f i1 s with
            | fatal => rw [r2, rbind_fatal] at hc; exact Res.noConfusion hc
            | spin => exact ih hwf (lt_of_lt_of_le (hlt i1 (by simp)) hff) r2
            | ok sb => rw [r2, rbind_ok] at hc; exact Res.noConfusion hc
        · rw [printExpS, hn] at hc; exact Res.noConfusion hc
      case Times =>
        rcases nins with _ | ⟨i0, _ | ⟨i1, _ | ⟨i2, rest2⟩⟩⟩
        · rw [printExpS, hn] at hc; exact Res.noConfusion hc
        · rw [printExpS, hn] at hc; exact Res.noConfusion hc
        · rw [printExpS, hn] at hc
          replace hc : rbind (printExpS f i0 s) (fun sa =>
              rbind (printExpS f i1 s) (fun sb =>
                Res.ok ("(" ++ sa ++ "*" ++ sb ++ ")"))) = Res.spin := hc
          cases r1 : printExpS f i0 s with
          | fatal => rw [r1, rbind_fatal] at hc; exact Res.noConfusion hc
          | spin => exact ih hwf (lt_of_lt_of_le (hlt i0 (by simp)) hff) r1
          | ok sa =>
            rw [r1, rbind_ok] at hc
            replace hc : rbind (printExpS f i1 s) (fun sb =>
                Res.ok ("(" ++ sa ++ "*" ++ sb ++ ")")) = Res.spin := hc
            cases r2 : printExpS f i1 s with
            | fatal => rw [r2, rbind_fatal] at hc; exact Res.noConfusion hc
            | spin => exact ih hwf (lt_of_lt_of_le (hlt i1 (by simp)) hff) r2
            | ok sb => rw [r2, rbind_ok] at hc; exact Res.noConfusion hc
        · rw [printExpS, hn] at hc; exact Res.noConfusion hc
      case Divide =>
        rcases nins with _ | ⟨i0, _ | ⟨i1, _ | ⟨i2, rest2⟩⟩⟩
        · rw [printExpS, hn] at hc; exact Res.noConfusion hc
        · rw [printExpS, hn] at hc; exact Res.noConfusion hc
        · rw [printExpS, hn] at hc
          replace hc : rbind (printExpS f i0 s) (fun sa =>
              rbind (printExpS f i1 s) (fun sb =>
                Res.ok ("(" ++ sa ++ "/" ++ sb ++ ")"))) = Res.spin := hc
          cases r1 : printExpS f i0 s with
          | fatal => rw [r1, rbind_fatal] at hc; exact Res.noConfusion hc
          | spin => exact ih hwf (lt_of_lt_of_le (hlt i0 (by simp)) hff) r1
          | ok sa =>
            rw [r1, rbind_ok] at hc
            replace hc : rbind (printExpS f i1 s) (fun sb =>
                Res.ok ("(" ++ sa ++ "/" ++ sb ++ ")")) = Res.spin := hc
            cases r2 : printExpS f i1 s with
            | fatal => rw [r2, rbind_fatal] at hc; exact Res.noConfusion hc
            | spin => exact ih hwf (lt_of_lt_of_le (hlt i1 (by simp)) hff) r2
            | ok sb => rw [r2, rbind_ok] at hc; exact Res.noConfusion hc
        · rw [printExpS, hn] at hc; exact Res.noConfusion hc
      case PlusImm =>
        rcases nins with _ | ⟨i0, _ | ⟨i1, rest2⟩⟩
        · rw [printExpS, hn] at hc; exact Res.noConfusion hc
        · rw [printExpS, hn] at hc
          replace hc : rbind (printExpS f i0 s) (fun sa =>
              Res.ok ("(" ++ sa ++ "+" ++ toString niv ++ ")")) = Res.spin := hc
          cases r1 : printExpS f i0 s with
          | fatal => rw [r1, rbind_fatal] at hc; exact Res.noConfusion hc
          | spin => exact ih hwf (lt_of_lt_of_le (hlt i0 (by simp)) hff) r1
          | ok sa => rw [r1, rbind_ok] at hc; exact Res.noConfusion hc
        · rw [printExpS, hn] at hc; exact Res.noConfusion hc
      case TimesImm =>
        rcases nins with _ | ⟨i0, _ | ⟨i1, rest2⟩⟩
        · rw [printExpS, hn] at hc; exact Res.noConfusion hc
        · rw [printExpS, hn] at hc
          replace hc : rbind (printExpS f i0 s) (fun sa =>
              Res.ok ("(" ++ sa ++ "*" ++ toString niv ++ ")")) = Res.spin := hc
          cases r1 : printExpS f i0 s with
          | fatal => rw [r1, rbind_fatal] at hc; exact Res.noConfusion hc
          | spin => exact ih hwf (lt_of_lt_of_le (hlt i0 (by simp)) hff) r1
          | ok sa => rw [r1, rbind_ok] at hc; exact Res.noConfusion hc
        · rw [printExpS, hn] at hc; exact Res.noConfusion hc
      case LoadImm =>
        rcases nins with _ | ⟨i0, _ | ⟨i1, rest2⟩⟩
        · rw [printExpS, hn] at hc; exact Res.noConfusion hc
        · rw [printExpS, hn] at hc
          replace hc : rbind (printExpS f i0 s) (fun sa =>
              Res.ok ("[" ++ sa ++ "+" ++ toString niv ++ "]")) = Res.spin := hc
          cases r1 : printExpS f i0 s with
          | fatal => rw [r1, rbind_fatal] at hc; exact Res.noConfusion hc
          | spin => exact ih hwf (lt_of_lt_of_le (hlt i0 (by simp)) hff) r1
          | ok sa => rw [r1, rbind_ok] at hc; exact Res.noConfusion hc
        · rw [printExpS, hn] at hc; exact Res.noConfusion hc
      case Load =>
        rcases nins with _ | ⟨i0, _ | ⟨i1, rest2⟩⟩
        · rw [printExpS, hn] at hc; exact Res.noConfusion hc
        · rw [printExpS, hn] at hc
          replace hc : rbind (printExpS f i0 s) (fun sa =>
              Res.ok ("[" ++ sa ++ "]")) = Res.spin := hc
          cases r1 : printExpS f i0 s with
          | fatal => rw [r1, rbind_fatal] at hc; exact Res.noConfusion hc
          | spin => exact ih hwf (lt_of_lt_of_le (hlt i0 (by simp)) hff) r1
          | ok sa => rw [r1, rbind_ok] at hc; exact Res.noConfusion hc
        · rw [printExpS, hn] at hc; exact Res.noConfusion hc
      all_goals (
        first
          | (rw [printExpS, hn] at hc; exact Res.noConfusion hc)
          | (rcases nins with _ | ⟨i0, _ | ⟨i1, rest2⟩⟩
             · rw [printExpS, hn] at hc; exact Res.noConfusion hc
             · rw [printExpS, hn] at hc
               replace hc : rbind (printExpS f i0 s) (fun s0 =>
                   Res.ok (opname _ ++ "(" ++ s0 ++ ")")) = Res.spin := hc
               cases r1 : printExpS f i0 s with
               | fatal => rw [r1, rbind_fatal] at hc; exact Res.noConfusion hc
               | spin => exact ih hwf (lt_of_lt_of_le (hlt i0 (by simp)) hff) r1
               | ok s0 => rw [r1, rbind_ok] at hc; exact Res.noConfusion hc
             · rw [printExpS, hn] at hc
               replace hc : rbind (printExpS f i0 s) (fun s0 =>
                   rbind (printExpS f i1 s) (fun s1 =>
                     Res.ok (opname _ ++ "(" ++ s0 ++
                       String.join (List.replicate (i1 :: rest2).length
                         (", " ++ s1)) ++ ")"))) = Res.spin := hc
               cases r1 : printExpS f i0 s with
               | fatal => rw [r1, rbind_fatal] at hc; exact Res.noConfusion hc
               | spin => exact ih hwf (lt_of_lt_of_le (hlt i0 (by simp)) hff) r1
               | ok s0 =>
                 rw [r1, rbind_ok] at hc
                 replace hc : rbind (printExpS f i1 s) (fun s1 =>
                     Res.ok (opname _ ++ "(" ++ s0 ++
                       String.join (List.replicate (i1 :: rest2).length
                         (", " ++ s1)) ++ ")")) = Res.spin := hc
                 cases r2 : printExpS f i1 s with
                 | fatal => rw [r2, rbind_fatal] at hc; exact Res.noConfusion hc
                 | spin => exact ih hwf (lt_of_lt_of_le (hlt i1 (by simp)) hff) r2
                 | ok s1 => rw [r2, rbind_ok] at hc; exact Res.noConfusion hc))

/-- `depsOfInputs` only depends on the `deps` of the listed nodes. -/
theorem depsOfInputs_congr_deps {s s' : St} {l : List Nat} (d0 : Nat)
    (h : ∀ j ∈ l, depsOf s' j = depsOf s j) :
    depsOfInputs s' l d0 = depsOfInputs s l d0 := by
  induction l generalizing d0 with
  | nil => rfl
  | cons a as ih =>
    simp only [depsOfInputs, List.foldl_cons]
    have ha : ((s'.node? a).map Node.deps).getD 0 =
        ((s.node? a).map Node.deps).getD 0 := h a (List.mem_cons_self a as)
    rw [ha]
    exact ih _ (fun j hj => h j (List.mem_cons_of_mem a hj))

/-- Setting the `marked` bit of a node (what `markDescendents` writes)
preserves the store invariant: `marked` takes part in no clause. -/
theorem storeWF_set_marked {s : St} {nid : Nat} {n : Node} (m : Bool)
    (hwf : storeWF s) (hn : s.node? nid = some n) :
    storeWF { s with nodes := s.nodes.set nid { n with marked := m } } := by
  have hkey : ∀ j, ({ s with
      nodes := s.nodes.set nid { n with marked := m } } : St).node? j =
      if j = nid then some { n with marked := m } else s.node? j := by
    intro j
    by_cases hj : j = nid
    · subst hj
      rw [if_pos rfl, node?_def]
      exact List.get?_set_eq_of_lt _ (node?_lt_length hn)
    · rw [if_neg hj, node?_def, node?_def]
      exact List.get?_set_ne _ _ (fun hc => hj hc.symm)
  have hdeps : ∀ j, depsOf ({ s with
      nodes := s.nodes.set nid { n with marked := m } } : St) j = depsOf s j := by
    intro j
    rw [depsOf, depsOf, hkey j]
    by_cases hj : j = nid
    · subst hj
      rw [if_pos rfl, hn]
      rfl
    · rw [if_neg hj]
  have hlen : ({ s with
      nodes := s.nodes.set nid { n with marked := m } } : St).nodes.length =
      s.nodes.length := by
    simp
  intro i hi
  rw [List.mem_range, hlen] at hi
  rcases node?_isSome_iff.mpr hi with ⟨q, hq⟩
  obtain ⟨h1, h2, h3, h4, h5⟩ := storeWF_node hwf hq
  by_cases hj : i = nid
  · subst hj
    rw [hn] at hq
    injection hq with he
    subst he
    have hq2 := hkey i
    rw [if_pos rfl] at hq2
    simp only [nodeAt, hq2, Option.getD_some]
    refine ⟨h1, fun j hj2 => ⟨(h2 j hj2).1, by rw [hlen]; exact (h2 j hj2).2⟩,
      h3.trans (depsOfInputs_congr_deps _ (fun j _ => hdeps j)).symm, h4, h5⟩
  · have hq2 : ({ s with
        nodes := s.nodes.set nid { n with marked := m } } : St).node? i = some q := by
      rw [hkey i, if_neg hj]
      exact hq
    simp only [nodeAt, hq2, Option.getD_some]
    refine ⟨h1, fun j hj2 => ⟨(h2 j hj2).1, by rw [hlen]; exact (h2 j hj2).2⟩,
      h3.trans (depsOfInputs_congr_deps _ (fun j _ => hdeps j)).symm, h4, h5⟩

/-- Branch unfolding of `markDescendents` on a looked-up node. -/
theorem markDesc_succ {s : St} {nid : Nat} {n : Node} (f : Nat) (v : Bool)
    (hn : s.node? nid = some n) :
    markDesc (f + 1) nid v s =
      (if n.marked = v then Res.ok s
       else rbind (markList f n.inputs v s) fun st =>
         match st.node? nid with
         | none => Res.fatal
         | some n2 =>
           Res.ok { st with nodes := st.nodes.set nid { n2 with marked := v } }) := by
  rw [markDesc, hn]

/-- A successful `markDescendents` run preserves the store length and the
store invariant. -/
theorem mark_wf : ∀ (f : Nat),
    (∀ {nid : Nat} {v : Bool} {s s1 : St}, markDesc f nid v s = .ok s1 →
       s1.nodes.length = s.nodes.length ∧ (storeWF s → storeWF s1)) ∧
    (∀ {l : List Nat} {v : Bool} {s s1 : St}, markList f l v s = .ok s1 →
       s1.nodes.length = s.nodes.length ∧ (storeWF s → storeWF s1)) := by
  intro f
  induction f with
  | zero =>
    exact ⟨fun h => Res.noConfusion h, fun h => Res.noConfusion h⟩
  | succ f ih =>
    constructor
    · intro nid v s s1 h
      cases hn : s.node? nid with
      | none => rw [markDesc, hn] at h; exact Res.noConfusion h
      | some n =>
        rw [markDesc_succ f v hn] at h
        by_cases hm : n.marked = v
        · rw [if_pos hm] at h
          injection h with he
          subst he
          exact ⟨rfl, fun hwf => hwf⟩
        · rw [if_neg hm] at h
          cases rl : markList f n.inputs v s with
          | fatal => rw [rl, rbind_fatal] at h; exact Res.noConfusion h
          | spin => rw [rl, rbind_spin] at h; exact Res.noConfusion h
          | ok st1 =>
            rw [rl, rbind_ok] at h
            replace h : (match st1.node? nid with
                | none => Res.fatal
                | some n2 => Res.ok { st1 with
                    nodes := st1.nodes.set nid { n2 with marked := v } }) =
              Res.ok s1 := h
            cases hn2 : st1.node? nid with
            | none => rw [hn2] at h; exact Res.noConfusion h
            | some n2 =>
              rw [hn2] at h
              injection h with he
              subst he
              obtain ⟨hl1, hw1⟩ := ih.2 rl
              refine ⟨?_, fun hwf => storeWF_set_marked v (hw1 hwf) hn2⟩
              simpa using hl1
    · intro l v s s1 h
      cases l with
      | nil =>
        rw [markList] at h
        injection h with he
        subst he
        exact ⟨rfl, fun hwf => hwf⟩
      | cons j rest =>
        rw [markList] at h
        cases r1 : markDesc f j v s with
        | fatal => rw [r1, rbind_fatal] at h; exact Res.noConfusion h
        | spin => rw [r1, rbind_spin] at h; exact Res.noConfusion h
        | ok st1 =>
          rw [r1, rbind_ok] at h
          replace h : markList f rest v st1 = Res.ok s1 := h
          obtain ⟨hl1, hw1⟩ := ih.1 r1
          obtain ⟨hl2, hw2⟩ := ih.2 h
          exact ⟨hl2.trans hl1, fun hwf => hw2 (hw1 hwf)⟩

/-- Adding one unit of fuel cannot change a result other than `spin`. -/
theorem mark_mono : ∀ (f : Nat),
    (∀ {nid : Nat} {v : Bool} {s : St} {r : Res St}, markDesc f nid v s = r →
       r ≠ .spin → markDesc (f + 1) nid v s = r) ∧
    (∀ {l : List Nat} {v : Bool} {s : St} {r : Res St}, markList f l v s = r →
       r ≠ .spin → markList (f + 1) l v s = r) := by
  intro f
  induction f with
  | zero =>
    constructor
    · intro nid v s r h hr
      exact absurd h.symm hr
    · intro l v s r h hr
      exact absurd h.symm hr
  | succ f ih =>
    constructor
    · intro nid v s r h hr
      cases hn : s.node? nid with
      | none =>
        rw [markDesc, hn] at h
        rw [markDesc, hn]
        exact h
      | some n =>
        rw [markDesc_succ f v hn] at h
        rw [markDesc_succ (f + 1) v hn]
        by_cases hm : n.marked = v
        · rw [if_pos hm] at h ⊢
          exact h
        · rw [if_neg hm] at h ⊢
          cases rl : markList f n.inputs v s with
          | spin => rw [rl, rbind_spin] at h; exact absurd h.symm hr
          | fatal =>
            rw [rl, rbind_fatal] at h
            rw [ih.2 rl (fun hc => Res.noConfusion hc), rbind_fatal]
            exact h
          | ok st1 =>
            rw [rl, rbind_ok] at h
            rw [ih.2 rl (fun hc => Res.noConfusion hc), rbind_ok]
            exact h
    · intro l v s r h hr
      cases l with
      | nil =>
        rw [markList] at h
        rw [markList]
        exact h
      | cons j rest =>
        rw [markList] at h
        rw [markList]
        cases r1 : markDesc f j v s with
        | spin => rw [r1, rbind_spin] at h; exact absurd h.symm hr
        | fatal =>
          rw [r1, rbind_fatal] at h
          rw [ih.1 r1 (fun hc => Res.noConfusion hc), rbind_fatal]
          exact h
        | ok st1 =>
          rw [r1, rbind_ok] at h
          replace h : markList f rest v st1 = r := h
          rw [ih.1 r1 (fun hc => Res.noConfusion hc), rbind_ok]
          exact ih.2 h hr

/-- Fuel monotonicity, iterated. -/
theorem mark_mono_le {f g : Nat} (hfg : f ≤ g) :
    (∀ {nid : Nat} {v : Bool} {s : St} {r : Res St}, markDesc f nid v s = r →
       r ≠ .spin → markDesc g nid v s = r) ∧
    (∀ {l : List Nat} {v : Bool} {s : St} {r : Res St}, markList f l v s = r →
       r ≠ .spin → markList g l v s = r) := by
  induction g, hfg using Nat.le_induction with
  | base => exact ⟨fun h _ => h, fun h _ => h⟩
  | succ g hg ih =>
    exact ⟨fun h hr => (mark_mono g).1 (ih.1 h hr) hr,
           fun h hr => (mark_mono g).2 (ih.2 h hr) hr⟩

/-- On a well-formed store, `markDescendents` terminates: some fuel makes it
return.  The recursion is on inputs, whose ids strictly decrease. -/
theorem mark_total : ∀ (nid : Nat) (v : Bool) (s : St), storeWF s →
    ∃ f, markDesc f nid v s ≠ .spin := by
  intro nid
  induction nid using Nat.strong_induction_on with
  | _ nid ihn =>
    have haux : ∀ (l : List Nat), (∀ j ∈ l, j < nid) →
        ∀ (v : Bool) (s : St), storeWF s → ∃ f, markList f l v s ≠ .spin := by
      intro l
      induction l with
      | nil =>
        intro _ v s _
        exact ⟨1, fun hc => Res.noConfusion hc⟩
      | cons j rest ihl =>
        intro hl v s hwf
        obtain ⟨f1, h1⟩ := ihn j (hl j (List.mem_cons_self j rest)) v s hwf
        cases r1 : markDesc f1 j v s with
        | spin => exact absurd r1 h1
        | fatal =>
          refine ⟨f1 + 1, fun hc => ?_⟩
          rw [markList, r1, rbind_fatal] at hc
          exact Res.noConfusion hc
        | ok st1 =>
          have hwf1 : storeWF st1 := ((mark_wf f1).1 r1).2 hwf
          obtain ⟨f2, h2⟩ :=
            ihl (fun j2 hj2 => hl j2 (List.mem_cons_of_mem j hj2)) v st1 hwf1
          cases r2 : markList f2 rest v st1 with
          | spin => exact absurd r2 h2
          | fatal =>
            refine ⟨max f1 f2 + 1, fun hc => ?_⟩
            rw [markList, (mark_mono_le (le_max_left f1 f2)).1 r1
              (fun hx => Res.noConfusion hx), rbind_ok] at hc
            replace hc : markList (max f1 f2) rest v st1 = Res.spin := hc
            rw [(mark_mono_le (le_max_right f1 f2)).2 r2
              (fun hx => Res.noConfusion hx)] at hc
            exact Res.noConfusion hc
          | ok st2 =>
            refine ⟨max f1 f2 + 1, fun hc => ?_⟩
            rw [markList, (mark_mono_le (le_max_left f1 f2)).1 r1
              (fun hx => Res.noConfusion hx), rbind_ok] at hc
            replace hc : markList (max f1 f2) rest v st1 = Res.spin := hc
            rw [(mark_mono_le (le_max_right f1 f2)).2 r2
              (fun hx => Res.noConfusion hx)] at hc
            exact Res.noConfusion hc
    intro v s hwf
    cases hn : s.node? nid with
    | none =>
      refine ⟨1, fun hc => ?_⟩
      rw [markDesc, hn] at hc
      exact Res.noConfusion hc
    | some n =>
      by_cases hm : n.marked = v
      · refine ⟨1, fun hc => ?_⟩
        rw [markDesc_succ 0 v hn, if_pos hm] at hc
        exact Res.noConfusion hc
      · obtain ⟨fL, hL⟩ := haux n.inputs ((storeWF_node hwf hn).1) v s hwf
        cases rL : markList fL n.inputs v s with
        | spin => exact absurd rL hL
        | fatal =>
          refine ⟨fL + 1, fun hc => ?_⟩
          rw [markDesc_succ fL v hn, if_neg hm, rL, rbind_fatal] at hc
          exact Res.noConfusion hc
        | ok st1 =>
          refine ⟨fL + 1, fun hc => ?_⟩
          rw [markDesc_succ fL v hn, if_neg hm, rL, rbind_ok] at hc
          replace hc : (match st1.node? nid with
              | none => Res.fatal
              | some n2 => Res.ok { st1 with
                  nodes := st1.nodes.set nid { n2 with marked := v } }) =
            Res.spin := hc
          cases hn2 : st1.node? nid with
          | none => rw [hn2] at hc; exact Res.noConfusion hc
          | some n2 => rw [hn2] at hc; exact Res.noConfusion hc

/-- Claim C10 (amended): (i) the constructor returns a fresh id whose node
has exactly the given inputs, and leaves the inputs list (and every other
immutable field) of every existing node unchanged; (ii) on a well-formed
store the inputs relation is acyclic (every edge decreases the id, so there
is no cycle); (iii)-(iv) `collectSum` and `printExp` terminate with any fuel
beyond the node id; (v) `markDescendents` terminates: some fuel suffices. -/
theorem C10_theorem :
    (∀ (t : Ty) (op : Op) (ins : List Nat) (iv : Int) (fv : ℚ) (s : St),
        (construct t op ins iv fv s).1 = s.nodes.length ∧
        inputsOf (construct t op ins iv fv s).2 (construct t op ins iv fv s).1 =
          ins ∧
        ∀ i, i < s.nodes.length →
          inputsOf (construct t op ins iv fv s).2 i = inputsOf s i) ∧
    (∀ (s : St), storeWF s → ∀ i,
        ¬ Relation.TransGen
            (fun a b : Nat => ∃ n, s.node? b = some n ∧ a ∈ n.inputs) i i) ∧
    (∀ (f : Nat) (s : St) (nid : Nat) (pos : Bool), storeWF s → nid < f →
        collectS f nid pos s ≠ .spin) ∧
    (∀ (f : Nat) (s : St) (nid : Nat), storeWF s → nid < f →
        printExpS f nid s ≠ .spin) ∧
    (∀ (s : St) (nid : Nat) (v : Bool), storeWF s →
        ∃ f, markDesc f nid v s ≠ .spin) := by
  refine ⟨?_, ?_, ?_, ?_, ?_⟩
  · intro t op ins iv fv s
    refine ⟨construct_fst t op ins iv fv s, ?_, ?_⟩
    · have h := construct_new_core t op ins iv fv s
      rw [construct_fst]
      cases hn : (construct t op ins iv fv s).2.node? s.nodes.length with
      | none => rw [hn] at h; exact absurd h (by simp)
      | some n =>
        rw [hn] at h
        simp only [Option.map_some'] at h
        injection h with h
        simp only [inputsOf, hn, Option.map_some', Option.getD_some]
        exact congrArg (fun q => q.2.2.1) h
    · intro i hi
      exact (construct_ext t op ins iv fv s).inputsOf hi
  · intro s hwf i htg
    have key : ∀ a b, Relation.TransGen
        (fun a b : Nat => ∃ n, s.node? b = some n ∧ a ∈ n.inputs) a b →
        a < b := by
      intro a b h
      induction h with
      | single h1 =>
        obtain ⟨n, hn, ha⟩ := h1
        exact (storeWF_node hwf hn).1 a ha
      | tail h1 h2 ih =>
        obtain ⟨n, hn, hb⟩ := h2
        exact lt_trans ih ((storeWF_node hwf hn).1 _ hb)
    exact absurd (key i i htg) (lt_irrefl i)
  · intro f s nid pos hwf hf
    exact collectS_nospin f hwf hf
  · intro f s nid hwf hf
    exact printExpS_nospin f hwf hf
  · intro s nid v hwf
    exact mark_total nid v s hwf

/-- A hand-assembled `Or` node over the `Bool` node `NEQ(1.0f, 0.0f)` (id 2)
and the `Int` node `VarX` (id 3) of the factory store `sBX`.  The factory
itself cannot build this node (`make(Or, Bool, Int)` diverges), but the store
satisfies every structural invariant the claim invokes. -/
def orNode10 : Node :=
  { ty := Ty.Bool, op := Op.Or, inputs := [2, 3], outputs := [], ival := 0,
    fval := 0, deps := 4, level := 3, reg := -1, marked := false }

def sC10 : St := { Ex.sBX with nodes := Ex.sBX.nodes ++ [orNode10] }

/-- With enough fuel for the traversal itself, `substitute(VarX, 7)` on the
`Or` node always ends in the diverging `make(Or, Bool, Int)` rebuild. -/
theorem C10aux (g : Nat) : substituteN (g + 4) 4 .VarX 7 sC10 = .spin := by
  have hstep : substituteN (g + 4) 4 .VarX 7 sC10 =
      makeOp (g + 3) .Or [2, 5] 0 0 (mkIntConst 7 sC10).2 := rfl
  rw [hstep]
  exact orBoolInt_spin (g + 3) (mkIntConst 7 sC10).2 2 5
    (by decide) (by decide) (by decide) (by decide) (by decide)

/-- Claim C10, counterexample to the claimed inference.  The store `sC10`
satisfies everything the claim derives from the factory: every node's inputs
point to previously-created nodes (ids strictly decrease, so the inputs graph
is acyclic), and nothing mutates an inputs list.  Yet
`substitute(VarX, 7)` on node 4 spins at every fuel: `substitute` is not a
pure traversal — it calls `make` on the rebuilt children, and
`make(Or, Bool, Int)` diverges (claim C2), so acyclicity of the inputs graph
alone does not make `substitute` (or `bind`) terminate. -/
theorem C10_counterexample :
    storeWF sC10 ∧
    (∀ i ∈ List.range sC10.nodes.length, ∀ j ∈ inputsOf sC10 i, j < i) ∧
    (∀ f, substituteN f 4 .VarX 7 sC10 = .spin) := by
  refine ⟨by decide, by decide, ?_⟩
  intro f
  rcases f with _ | _ | _ | _ | g
  · rfl
  · decide
  · decide
  · decide
  · exact C10aux g

/-- Witness for `C10_theorem`: the constructor conjunct on the two-constant
store `s9`, and the acyclicity/termination conjuncts on the factory store of
the C5 example at its root node (id 4). -/
theorem C10_witness :
    ((construct .Int .Plus [0, 1] 0 0 s9).1 = s9.nodes.length ∧
     inputsOf (construct .Int .Plus [0, 1] 0 0 s9).2
       (construct .Int .Plus [0, 1] 0 0 s9).1 = [0, 1] ∧
     ∀ i, i < s9.nodes.length →
       inputsOf (construct .Int .Plus [0, 1] 0 0 s9).2 i = inputsOf s9 i) ∧
    (¬ Relation.TransGen
        (fun a b : Nat => ∃ n, Ex.sC5.node? b = some n ∧ a ∈ n.inputs) 4 4) ∧
    collectS 5 4 true Ex.sC5 ≠ .spin ∧
    printExpS 5 4 Ex.sC5 ≠ .spin ∧
    (∃ f, markDesc f 4 true Ex.sC5 ≠ .spin) :=
  ⟨C10_theorem.1 .Int .Plus [0, 1] 0 0 s9,
   C10_theorem.2.1 Ex.sC5 (by decide) 4,
   C10_theorem.2.2.1 5 Ex.sC5 4 true (by decide) (by decide),
   C10_theorem.2.2.2.1 5 Ex.sC5 4 (by decide) (by decide),
   C10_theorem.2.2.2.2 Ex.sC5 4 true (by decide)⟩

end IRN
